import Mathlib

/-!
Shallow embedding of the HiveAuth authorization core
(synapse/lib/hiveauth.py): users, roles, auth gates, the permission
evaluator, and the public mutation operations, together with theorems
checking the natural-language specification against this embedding.
-/

namespace HiveAuth

/-- Opaque identifier (hex GUID in the source); modelled as a string. -/
abbrev Iden := String

/-- A permission: an ordered sequence of path segments. -/
abbrev Perm := List String

/-- A rule: `(allow, path)` as in the source (`for allow, path in rules`). -/
abbrev Rule := Bool × List String

/-- The `{admin, rules}` overlay a principal holds on one auth gate
(the per-gate info dict; `info.get('admin')` / `info.get('rules')`). -/
structure GateInfo where
  admin : Bool := false
  rules : List Rule := []
deriving DecidableEq

/-- A role: `HiveRole`.  `info` keys `admin` and `rules` plus the
per-gate overlay map `authgates`. -/
structure RoleState where
  name : String
  admin : Bool := false
  rules : List Rule := []
  authgates : List (Iden × GateInfo) := []
deriving DecidableEq

/-- Key of the per-user decision cache: `(perm, default, gateiden)`. -/
abbrev PKey := Perm × Option Bool × Option Iden

/-- A user: `HiveUser`.  `info` keys `admin`, `locked`, `archived`,
`passwd`, `rules`, `roles`, plus the overlay map and the decision cache. -/
structure UserState where
  name : String
  admin : Bool := false
  locked : Bool := false
  archived : Bool := false
  passwd : Option (String × String) := none
  rules : List Rule := []
  roles : List Iden := []
  authgates : List (Iden × GateInfo) := []
  cache : List (PKey × Option Bool) := []
deriving DecidableEq

/-- The whole `Auth` state: users and roles indexed by iden, and the
auth gates (iden, type). -/
structure AuthState where
  users : List (Iden × UserState) := []
  roles : List (Iden × RoleState) := []
  gates : List (Iden × String) := []
deriving DecidableEq

/-- Association-list lookup by iden (the dict `.get(iden)` of the source). -/
def lookupA {α : Type} (l : List (Iden × α)) (i : Iden) : Option α :=
  (l.find? (fun p => p.1 == i)).map (fun p => p.2)

/-- Lookup a user by name (`usersbyname.get(name)`). -/
def findUserByName (l : List (Iden × UserState)) (n : String) : Option (Iden × UserState) :=
  l.find? (fun p => p.2.name == n)

/-- Lookup a role by name (`rolesbyname.get(name)`). -/
def findRoleByName (l : List (Iden × RoleState)) (n : String) : Option (Iden × RoleState) :=
  l.find? (fun p => p.2.name == n)

/-! ### The evaluator (`HiveUser._allowed`) -/

/-- One scan of a rule list: `for allow, path in rules: if
perm[:len(path)] == path: return allow`. -/
def firstMatch (rules : List Rule) (perm : Perm) : Option Bool :=
  match rules with
  | [] => none
  | (allow, path) :: rest =>
    if perm.take path.length = path then some allow else firstMatch rest perm

/-- `HiveUser.getRoles`: resolve the user's role iden list against the
auth's role map, silently skipping dangling idens. -/
def resolveRoles (st : AuthState) (u : UserState) : List RoleState :=
  u.roles.filterMap (fun i => lookupA st.roles i)

/-- Step 3 of `_allowed`: scan each role's overlay on the gate, in role
order, returning the first matching rule's allow flag. -/
def rolesGateMatch (rs : List RoleState) (g : Iden) (perm : Perm) : Option Bool :=
  match rs with
  | [] => none
  | r :: rest =>
    match lookupA r.authgates g with
    | none => rolesGateMatch rest g perm
    | some info =>
      match firstMatch info.rules perm with
      | some v => some v
      | none => rolesGateMatch rest g perm

/-- Step 4 of `_allowed`: scan each role's global rules, in role order. -/
def rolesMatch (rs : List RoleState) (perm : Perm) : Option Bool :=
  match rs with
  | [] => none
  | r :: rest =>
    match firstMatch r.rules perm with
    | some v => some v
    | none => rolesMatch rest perm

/-- Step 1 of `_allowed`: the user's own overlay on the gate. -/
def gateUserStep (u : UserState) (perm : Perm) (g : Iden) : Option Bool :=
  match lookupA u.authgates g with
  | none => none
  | some info => if info.admin then some true else firstMatch info.rules perm

/-- `HiveUser._allowed(pkey)`: the decision evaluator, translated
clause by clause from the source. -/
def userAllowed (st : AuthState) (u : UserState) (perm : Perm)
    (dflt : Option Bool) (gate : Option Iden) : Option Bool :=
  if u.locked then some false
  else if u.admin then some true
  else
    match (match gate with | none => none | some g => gateUserStep u perm g) with
    | some v => some v
    | none =>
      match firstMatch u.rules perm with
      | some v => some v
      | none =>
        match (match gate with
               | none => none
               | some g => rolesGateMatch (resolveRoles st u) g perm) with
        | some v => some v
        | none =>
          match rolesMatch (resolveRoles st u) perm with
          | some v => some v
          | none => dflt

/-! ### The reference evaluation of claim C1, written from the spec's words -/

/-- Reference notion of rule matching: the rule's path is a prefix of
the queried permission, equal length counting as a prefix. -/
def firstRule (rules : List Rule) (perm : Perm) : Option Bool :=
  (rules.find? (fun r => r.2.isPrefixOf perm)).map (fun r => r.1)

/-- Return at the first determined result, else the default. -/
def firstDetermined (steps : List (Option Bool)) (d : Option Bool) : Option Bool :=
  match steps with
  | [] => d
  | some v :: _ => some v
  | none :: rest => firstDetermined rest d

/-- The seven-step reference evaluation of claim C1: locked, admin,
gate user overlay, user global rules, gate role overlays in role order,
global role rules in role order, default. -/
def allowedSpec (st : AuthState) (u : UserState) (perm : Perm)
    (dflt : Option Bool) (gate : Option Iden) : Option Bool :=
  if u.locked then some false
  else if u.admin then some true
  else
    firstDetermined
      [ gate.bind (fun g => (lookupA u.authgates g).bind (fun ov =>
          if ov.admin then some true else firstRule ov.rules perm)),
        firstRule u.rules perm,
        gate.bind (fun g => (resolveRoles st u).findSome? (fun r =>
          (lookupA r.authgates g).bind (fun ov => firstRule ov.rules perm))),
        (resolveRoles st u).findSome? (fun r => firstRule r.rules perm) ]
      dflt

/-! ### Errors and mutation operations -/

/-- The structured error kinds raised by the auth core. -/
inductive AuthErr
  | noSuchUser | noSuchRole | noSuchAuthGate
  | dupUserName | dupRoleName
  | cantDelRootUser | cantDelAllRole | cantRevokeAllRole
  | inconsistentStorage | badArg
deriving DecidableEq

/-- A value written by `setUserInfo` into a user's info dict, one
constructor per key the engine reads. -/
inductive UVal
  | admin (b : Bool)
  | locked (b : Bool)
  | archived (b : Bool)
  | urules (rs : List Rule)
  | uroles (rs : List Iden)
  | passwd (p : Option (String × String))
deriving DecidableEq

/-- A value written by `setRoleInfo` into a role's info dict. -/
inductive RVal
  | admin (b : Bool)
  | rrules (rs : List Rule)
deriving DecidableEq

def applyUVal (u : UserState) (v : UVal) : UserState :=
  match v with
  | .admin b => { u with admin := b }
  | .locked b => { u with locked := b }
  | .archived b => { u with archived := b }
  | .urules rs => { u with rules := rs }
  | .uroles rs => { u with roles := rs }
  | .passwd p => { u with passwd := p }

/-- Writing a key into a gate overlay dict; keys other than `admin` and
`rules` are stored by the source but never read, so they leave the
modelled overlay unchanged. -/
def applyUValGate (gi : GateInfo) (v : UVal) : GateInfo :=
  match v with
  | .admin b => { gi with admin := b }
  | .urules rs => { gi with rules := rs }
  | _ => gi

def applyRVal (r : RoleState) (v : RVal) : RoleState :=
  match v with
  | .admin b => { r with admin := b }
  | .rrules rs => { r with rules := rs }

def applyRValGate (gi : GateInfo) (v : RVal) : GateInfo :=
  match v with
  | .admin b => { gi with admin := b }
  | .rrules rs => { gi with rules := rs }

/-- Pointwise association-list update at a key (`dict[iden] = f(...)`). -/
def setA {α : Type} (l : List (Iden × α)) (i : Iden) (f : α → α) : List (Iden × α) :=
  l.map (fun p => if p.1 == i then (p.1, f p.2) else p)

/-- Association-list removal of a key (`dict.pop(iden)`). -/
def removeA {α : Type} (l : List (Iden × α)) (i : Iden) : List (Iden × α) :=
  l.filter (fun p => !(p.1 == i))

/-- Python `list.remove(x)`: drop the first occurrence. -/
def removeFirst {α : Type} [DecidableEq α] (l : List α) (a : α) : List α :=
  match l with
  | [] => []
  | x :: xs => if x = a then xs else x :: removeFirst xs a

/-- `HiveUser.clearAuthCache`: `permcache.clear()`. -/
def clearCache (u : UserState) : UserState := { u with cache := [] }

/-- `HiveRole.clearAuthCache`: clear the cache of every user holding
the role. -/
def clearUsersWithRole (users : List (Iden × UserState)) (rid : Iden) :
    List (Iden × UserState) :=
  users.map (fun p => if rid ∈ p.2.roles then (p.1, clearCache p.2) else p)

/-- `Auth.setUserInfo`: write a user info key (or, with a gate iden,
a key of the user's overlay on that gate, creating the overlay lazily
via `genGateInfo`), then clear that user's decision cache. -/
def setUserInfoOp (st : AuthState) (iden : Iden) (v : UVal) (gate : Option Iden) :
    AuthState × Option AuthErr :=
  match lookupA st.users iden with
  | none => (st, some .noSuchUser)
  | some u =>
    match gate with
    | none =>
      ({ st with users := setA st.users iden (fun w => clearCache (applyUVal w v)) }, none)
    | some g =>
      match lookupA u.authgates g with
      | some _ =>
        ({ st with users := setA st.users iden (fun w =>
            clearCache { w with authgates := setA w.authgates g (fun gi => applyUValGate gi v) }) },
         none)
      | none =>
        match lookupA st.gates g with
        | none => (st, some .noSuchAuthGate)
        | some _ =>
          ({ st with users := setA st.users iden (fun w =>
              clearCache { w with authgates := w.authgates ++ [(g, applyUValGate {} v)] }) },
           none)

/-- `Auth.setRoleInfo`: write a role info key (or a key of the role's
overlay on a gate), then clear the cache of every user holding the role. -/
def setRoleInfoOp (st : AuthState) (iden : Iden) (v : RVal) (gate : Option Iden) :
    AuthState × Option AuthErr :=
  match lookupA st.roles iden with
  | none => (st, some .noSuchRole)
  | some r =>
    match gate with
    | none =>
      ({ st with roles := setA st.roles iden (fun w => applyRVal w v),
                 users := clearUsersWithRole st.users iden }, none)
    | some g =>
      match lookupA r.authgates g with
      | some _ =>
        ({ st with roles := setA st.roles iden (fun w =>
            { w with authgates := setA w.authgates g (fun gi => applyRValGate gi v) }),
                   users := clearUsersWithRole st.users iden }, none)
      | none =>
        match lookupA st.gates g with
        | none => (st, some .noSuchAuthGate)
        | some _ =>
          ({ st with roles := setA st.roles iden (fun w =>
              { w with authgates := w.authgates ++ [(g, applyRValGate {} v)] }),
                     users := clearUsersWithRole st.users iden }, none)

/-- The role list produced by `grant`: append, or Python `list.insert`
(which clamps the index to the length). -/
def grantNewRoles (roles : List Iden) (rid : Iden) (indx : Option Nat) : List Iden :=
  match indx with
  | none => roles ++ [rid]
  | some i => if roles.length ≤ i then roles ++ [rid] else roles.insertIdx i rid

/-- `HiveUser.grant(name, indx)`: no-op when the role is already held,
else insert its iden and write the list through `user:info`. -/
def grantOp (st : AuthState) (uiden : Iden) (rolename : String) (indx : Option Nat) :
    AuthState × Option AuthErr :=
  match findRoleByName st.roles rolename with
  | none => (st, some .noSuchRole)
  | some (rid, _) =>
    match lookupA st.users uiden with
    | none => (st, some .noSuchUser)
    | some u =>
      if rid ∈ u.roles then (st, none)
      else setUserInfoOp st uiden (.uroles (grantNewRoles u.roles rid indx)) none

/-- `HiveUser.revoke(name)`: refuse the `all` role; no-op when the role
is not held; else drop the first occurrence and write through `user:info`. -/
def revokeOp (st : AuthState) (uiden : Iden) (rolename : String) :
    AuthState × Option AuthErr :=
  match findRoleByName st.roles rolename with
  | none => (st, some .noSuchRole)
  | some (rid, r) =>
    if r.name == "all" then (st, some .cantRevokeAllRole)
    else
      match lookupA st.users uiden with
      | none => (st, some .noSuchUser)
      | some u =>
        if rid ∈ u.roles then setUserInfoOp st uiden (.uroles (removeFirst u.roles rid)) none
        else (st, none)

/-- `Auth._addUser` (the `user:add` handler): reject a duplicate name,
else create the user node with default info. -/
def addUserRaw (st : AuthState) (iden : Iden) (name : String) :
    AuthState × Option AuthErr :=
  match findUserByName st.users name with
  | some _ => (st, some .dupUserName)
  | none => ({ st with users := st.users ++ [(iden, { name := name })] }, none)

/-- `Auth.addUser`: create the user, then grant the `all` role. -/
def addUserOp (st : AuthState) (iden : Iden) (name : String) :
    AuthState × Option AuthErr :=
  match addUserRaw st iden name with
  | (st1, some e) => (st1, some e)
  | (st1, none) => grantOp st1 iden "all" none

/-- `Auth.delUser`: `root` may not be deleted; else remove the user. -/
def delUserOp (st : AuthState) (name : String) : AuthState × Option AuthErr :=
  if name == "root" then (st, some .cantDelRootUser)
  else
    match findUserByName st.users name with
    | none => (st, some .noSuchUser)
    | some (uid, _) => ({ st with users := removeA st.users uid }, none)

/-- `Auth._addRole` (the `role:add` handler). -/
def addRoleOp (st : AuthState) (iden : Iden) (name : String) :
    AuthState × Option AuthErr :=
  match findRoleByName st.roles name with
  | some _ => (st, some .dupRoleName)
  | none => ({ st with roles := st.roles ++ [(iden, { name := name })] }, none)

/-- `Auth.delRole`: `all` may not be deleted; else revoke the role from
every user holding it (dropping the first occurrence and clearing the
cache, as `revoke` does) and remove the role. -/
def delRoleOp (st : AuthState) (name : String) : AuthState × Option AuthErr :=
  if name == "all" then (st, some .cantDelAllRole)
  else
    match findRoleByName st.roles name with
    | none => (st, some .noSuchRole)
    | some (rid, _) =>
      ({ st with
          users := st.users.map (fun p =>
            if rid ∈ p.2.roles then
              (p.1, clearCache { p.2 with roles := removeFirst p.2.roles rid })
            else p),
          roles := removeA st.roles rid }, none)

/-- `Auth.setUserName`: duplicate-name check first, then rename.
The decision cache is not touched. -/
def setUserNameOp (st : AuthState) (iden : Iden) (name : String) :
    AuthState × Option AuthErr :=
  match findUserByName st.users name with
  | some _ => (st, some .dupUserName)
  | none =>
    match lookupA st.users iden with
    | none => (st, some .noSuchUser)
    | some _ =>
      ({ st with users := setA st.users iden (fun u => { u with name := name }) }, none)

/-- `Auth.setRoleName`: duplicate-name check first, then rename.
No decision cache is touched. -/
def setRoleNameOp (st : AuthState) (iden : Iden) (name : String) :
    AuthState × Option AuthErr :=
  match findRoleByName st.roles name with
  | some _ => (st, some .dupRoleName)
  | none =>
    match lookupA st.roles iden with
    | none => (st, some .noSuchRole)
    | some _ =>
      ({ st with roles := setA st.roles iden (fun r => { r with name := name }) }, none)

/-- `HiveUser.setArchived`: write `archived`; when archiving, also lock. -/
def setArchivedOp (st : AuthState) (uiden : Iden) (b : Bool) :
    AuthState × Option AuthErr :=
  match setUserInfoOp st uiden (.archived b) none with
  | (st1, some e) => (st1, some e)
  | (st1, none) => if b then setUserInfoOp st1 uiden (.locked true) none else (st1, none)

/-- Modelled from the spec: `s_common.guid` (synapse/common.py is not
part of the sources) — "the platform's 128-bit hex hash of the tuple".
The spec's password law assumes the hash is collision-free, so it is
modelled as an injective encoding of the `(salt, passwd)` tuple. -/
def s_common_guid (x : String × String) : String :=
  x.1 ++ ":" ++ x.2

/-- A Python argument that may or may not be a string, as validated by
`setPasswd`'s `isinstance(passwd, str)` check. -/
inductive PyStrArg
  | pyStr (s : String)
  | pyNonStr
deriving DecidableEq

/-- `HiveUser.setPasswd`: reject empty or non-string values with
`BadArg`; else store `(salt, guid((salt, passwd)))` directly in the
info dict (no cache clear).  The fresh salt GUID is a parameter. -/
def setPasswdOp (st : AuthState) (uiden : Iden) (arg : PyStrArg) (salt : String) :
    AuthState × Option AuthErr :=
  match arg with
  | .pyNonStr => (st, some .badArg)
  | .pyStr p =>
    if p = "" then (st, some .badArg)
    else
      match lookupA st.users uiden with
      | none => (st, some .noSuchUser)
      | some _ =>
        ({ st with users := setA st.users uiden (fun u =>
            { u with passwd := some (salt, s_common_guid (salt, p)) }) }, none)

/-- `HiveUser.tryPasswd`: false when locked, when no password is given,
or when no shadow is stored; else compare the recomputed hash. -/
def tryPasswd (u : UserState) (passwd : Option String) : Bool :=
  if u.locked then false
  else
    match passwd with
    | none => false
    | some p =>
      match u.passwd with
      | none => false
      | some (salt, hashed) => s_common_guid (salt, p) == hashed

/-- `Auth.addAuthGate`: reuse an existing gate of the same type, reject
a type mismatch, else create the gate. -/
def addAuthGateOp (st : AuthState) (iden ty : String) : AuthState × Option AuthErr :=
  match lookupA st.gates iden with
  | some t => if t == ty then (st, none) else (st, some .inconsistentStorage)
  | none => ({ st with gates := st.gates ++ [(iden, ty)] }, none)

/-- Whether a role (by iden) currently holds an overlay on gate `g`
(membership in `gateroles`, kept in sync with the role's own map). -/
def roleHasGate (st : AuthState) (g : Iden) (rid : Iden) : Bool :=
  match lookupA st.roles rid with
  | none => false
  | some r => (lookupA r.authgates g).isSome

/-- `Auth.delAuthGate` / `AuthGate.delete`: detach the overlay from
every user (clearing their caches) and from every role (clearing the
caches of the users holding it), then drop the gate. -/
def delAuthGateOp (st : AuthState) (g : String) : AuthState × Option AuthErr :=
  match lookupA st.gates g with
  | none => (st, some .noSuchAuthGate)
  | some _ =>
    ({ st with
        users := st.users.map (fun p =>
          if (lookupA p.2.authgates g).isSome || p.2.roles.any (roleHasGate st g) then
            (p.1, clearCache { p.2 with authgates := removeA p.2.authgates g })
          else (p.1, { p.2 with authgates := removeA p.2.authgates g })),
        roles := st.roles.map (fun p => (p.1, { p.2 with authgates := removeA p.2.authgates g })),
        gates := removeA st.gates g }, none)

/-- Size bound of the per-user decision cache.  Modelled from the spec:
`FixedCache` (synapse/lib/cache.py is not part of the sources) is a
bounded memo table; the bound is implementation-defined, at least 1000.
Eviction only drops entries. -/
def permCacheSize : Nat := 10000

/-- `HiveUser.allowed` on a cache hit, plus memoization on a miss.
Modelled from the spec: `FixedCache.get` returns the cached value for
the tuple when present, else runs `_allowed` and memoizes. -/
def queryOp (st : AuthState) (uiden : Iden) (k : PKey) : AuthState × Option AuthErr :=
  match lookupA st.users uiden with
  | none => (st, some .noSuchUser)
  | some u =>
    if (u.cache.find? (fun e => decide (e.1 = k))).isSome then (st, none)
    else
      let v := userAllowed st u k.1 k.2.1 k.2.2
      ({ st with users := setA st.users uiden (fun w =>
          { w with cache := ((k, v) :: w.cache).take permCacheSize }) }, none)

/-- `HiveUser.allowed(perm, default, gateiden)`: the cached decision
when present, else the evaluator's answer. -/
def allowedCached (st : AuthState) (u : UserState) (k : PKey) : Option Bool :=
  match (u.cache.find? (fun e => decide (e.1 = k))).map (fun e => e.2) with
  | some v => v
  | none => userAllowed st u k.1 k.2.1 k.2.2

/-- The public mutation surface of the auth core, plus `query` for the
cache-filling read path. -/
inductive AuthOp
  | addUser (iden name : String)
  | delUser (name : String)
  | addRole (iden name : String)
  | delRole (name : String)
  | setUserName (iden name : String)
  | setRoleName (iden name : String)
  | setUserInfo (iden : Iden) (v : UVal) (gate : Option Iden)
  | setRoleInfo (iden : Iden) (v : RVal) (gate : Option Iden)
  | grant (uiden : Iden) (rolename : String) (indx : Option Nat)
  | revoke (uiden : Iden) (rolename : String)
  | setLocked (uiden : Iden) (b : Bool)
  | setArchived (uiden : Iden) (b : Bool)
  | setPasswd (uiden : Iden) (arg : PyStrArg) (salt : String)
  | addAuthGate (iden ty : String)
  | delAuthGate (iden : String)
  | query (uiden : Iden) (k : PKey)

def runOp (op : AuthOp) (st : AuthState) : AuthState × Option AuthErr :=
  match op with
  | .addUser iden name => addUserOp st iden name
  | .delUser name => delUserOp st name
  | .addRole iden name => addRoleOp st iden name
  | .delRole name => delRoleOp st name
  | .setUserName iden name => setUserNameOp st iden name
  | .setRoleName iden name => setRoleNameOp st iden name
  | .setUserInfo iden v gate => setUserInfoOp st iden v gate
  | .setRoleInfo iden v gate => setRoleInfoOp st iden v gate
  | .grant uiden rolename indx => grantOp st uiden rolename indx
  | .revoke uiden rolename => revokeOp st uiden rolename
  | .setLocked uiden b => setUserInfoOp st uiden (.locked b) none
  | .setArchived uiden b => setArchivedOp st uiden b
  | .setPasswd uiden arg salt => setPasswdOp st uiden arg salt
  | .addAuthGate iden ty => addAuthGateOp st iden ty
  | .delAuthGate iden => delAuthGateOp st iden
  | .query uiden k => queryOp st uiden k

/-- The freshly bootstrapped `Auth`: the `all` role, and the admin
`root` user holding it. -/
def initAuth (allIden rootIden : Iden) : AuthState :=
  { roles := [(allIden, { name := "all" })],
    users := [(rootIden, { name := "root", admin := true, roles := [allIden] })],
    gates := [] }

/-- GUID freshness assumption for creation operations: the generated
iden is not already an entity key. -/
def opFresh (op : AuthOp) (st : AuthState) : Prop :=
  match op with
  | .addUser iden _ => lookupA st.users iden = none ∧ lookupA st.roles iden = none
  | .addRole iden _ => lookupA st.users iden = none ∧ lookupA st.roles iden = none
  | _ => True

/-- Reachability by completed (non-raising) public operations. -/
inductive Reach : AuthState → AuthState → Prop
  | refl (st : AuthState) : Reach st st
  | step (st₀ st st' : AuthState) (op : AuthOp) :
      Reach st₀ st → opFresh op st → runOp op st = (st', none) → Reach st₀ st'

/-- The part of a role the evaluator reads: its global rules and its
per-gate overlays (never its name or admin flag). -/
def roleView (st : AuthState) (j : Iden) : Option (List Rule × List (Iden × GateInfo)) :=
  (lookupA st.roles j).map (fun r => (r.rules, r.authgates))


/-- `HiveRuler.getRules` for a user: the global rule list, or the
overlay's rule list on a gate (empty when no overlay exists). -/
def userGetRules (u : UserState) (gate : Option Iden) : List Rule :=
  match gate with
  | none => u.rules
  | some g =>
    match lookupA u.authgates g with
    | none => []
    | some gi => gi.rules

/-- `HiveRuler.getRules` for a role. -/
def roleGetRules (r : RoleState) (gate : Option Iden) : List Rule :=
  match gate with
  | none => r.rules
  | some g =>
    match lookupA r.authgates g with
    | none => []
    | some gi => gi.rules

/-- `HiveRuler.delRule` on a user: return false and change nothing when
the rule is absent; else drop the first occurrence and store through
`setRules`/`user:info`.  Returns ((state, error), returned bool). -/
def userDelRule (st : AuthState) (uid : Iden) (rule : Rule) (gate : Option Iden) :
    (AuthState × Option AuthErr) × Bool :=
  match lookupA st.users uid with
  | none => ((st, some .noSuchUser), false)
  | some u =>
    let rules := userGetRules u gate
    if rule ∈ rules then
      (setUserInfoOp st uid (.urules (removeFirst rules rule)) gate, true)
    else ((st, none), false)

/-- `HiveRuler.delRule` on a role. -/
def roleDelRule (st : AuthState) (rid : Iden) (rule : Rule) (gate : Option Iden) :
    (AuthState × Option AuthErr) × Bool :=
  match lookupA st.roles rid with
  | none => ((st, some .noSuchRole), false)
  | some r =>
    let rules := roleGetRules r gate
    if rule ∈ rules then
      (setRoleInfoOp st rid (.rrules (removeFirst rules rule)) gate, true)
    else ((st, none), false)

/-- Cache coherence: every memoized entry of every user equals a fresh
evaluation against the current state. -/
def Coherent (st : AuthState) : Prop :=
  ∀ p ∈ st.users, ∀ e ∈ p.2.cache, e.2 = userAllowed st p.2 e.1.1 e.1.2.1 e.1.2.2

/-- Key uniqueness of the user map (the source stores users in a dict
keyed by GUID; GUID freshness makes the keys unique). -/
def UsersOK (st : AuthState) : Prop := (st.users.map Prod.fst).Nodup

/-- The operations of the restricted system for the amended claim C4:
no direct `setUserInfo` of the `roles` key, and no rename of the
bootstrap `all` role. -/
def c4SafeOp (allIden : Iden) (op : AuthOp) : Prop :=
  (∀ i rs g, op ≠ .setUserInfo i (.uroles rs) g) ∧
  (∀ n, op ≠ .setRoleName allIden n)

/-- Reachability in the restricted system of the amended claim C4. -/
inductive ReachC4 (allIden rootIden : Iden) : AuthState → Prop
  | init : ReachC4 allIden rootIden (initAuth allIden rootIden)
  | step (st st' : AuthState) (op : AuthOp) :
      ReachC4 allIden rootIden st → c4SafeOp allIden op → opFresh op st →
      runOp op st = (st', none) → ReachC4 allIden rootIden st'

/-- Joint invariant for the amended claim C4: a role is named `all`
exactly when it is the bootstrap all role, that role exists, and every
user holds it. -/
def AllRoleOK (allIden : Iden) (st : AuthState) : Prop :=
  (∀ p ∈ st.roles, ((p : Iden × RoleState).2.name = "all" ↔ p.1 = allIden)) ∧
  (lookupA st.roles allIden).isSome = true ∧
  (∀ p ∈ st.users, allIden ∈ (p : Iden × UserState).2.roles)

/-- State of the counterexample to claim C4: a completed
`setUserInfo(root, 'roles', [])` empties the root user's role list. -/
def c4CexState : AuthState :=
  (runOp (.setUserInfo "r0" (.uroles []) none) (initAuth "a0" "r0")).1

/-- Intermediate state of the counterexample to claim C7: root archived. -/
def c7CexMid : AuthState :=
  (runOp (.setArchived "r0" true) (initAuth "a0" "r0")).1

/-- State of the counterexample to claim C7: root archived, then
unlocked by `setLocked(false)`. -/
def c7CexState : AuthState :=
  (runOp (.setLocked "r0" false) c7CexMid).1

/-- Intermediate state of the counterexample to claim C8: the `all`
role renamed to `x`. -/
def c8CexMid : AuthState :=
  (runOp (.setRoleName "a0" "x") (initAuth "a0" "r0")).1

/-- State of the counterexample to claim C8: the renamed bootstrap role
deleted by `delRole("x")` — no role is left at all. -/
def c8CexState : AuthState :=
  (runOp (.delRole "x") c8CexMid).1

/-- Base state of the counterexample to claim C9: one query has been
memoized in root's decision cache. -/
def c9CexBase : AuthState :=
  (runOp (.query "r0" (["foo"], none, none)) (initAuth "a0" "r0")).1

/-- State of the counterexample to claim C9: root renamed while its
decision cache is non-empty. -/
def c9CexState : AuthState :=
  (runOp (.setUserName "r0" "admin") c9CexBase).1

/-- Second state of the counterexample to claim C9: the `all` role
renamed while root (which holds it) has a non-empty decision cache. -/
def c9CexState2 : AuthState :=
  (runOp (.setRoleName "a0" "everyone") c9CexState).1

/-! ### Theorems -/

/-! ### Claims C1 and C2 -/

theorem isPrefixOf_eq_take (l p : List String) :
    l.isPrefixOf p = decide (p.take l.length = l) := by
  induction l generalizing p with
  | nil => simp [List.isPrefixOf]
  | cons a as ih =>
    cases p with
    | nil => simp [List.isPrefixOf]
    | cons b bs =>
      rw [Bool.eq_iff_iff]
      simp only [List.isPrefixOf, List.length_cons, List.take_succ_cons,
        Bool.and_eq_true, beq_iff_eq, decide_eq_true_eq, List.cons.injEq, ih bs]
      constructor
      · rintro ⟨h1, h2⟩
        exact ⟨h1.symm, h2⟩
      · rintro ⟨h1, h2⟩
        exact ⟨h1.symm, h2⟩

theorem firstRule_cons (allow : Bool) (path : List String) (rest : List Rule)
    (perm : Perm) :
    firstRule ((allow, path) :: rest) perm =
      if perm.take path.length = path then some allow else firstRule rest perm := by
  simp only [firstRule, List.find?_cons, isPrefixOf_eq_take]
  by_cases h : perm.take path.length = path
  · simp [h]
  · simp [h, firstRule]

theorem firstMatch_eq_firstRule (rules : List Rule) (perm : Perm) :
    firstMatch rules perm = firstRule rules perm := by
  induction rules with
  | nil => rfl
  | cons r rest ih =>
    obtain ⟨allow, path⟩ := r
    rw [firstRule_cons]
    by_cases h : perm.take path.length = path
    · simp [firstMatch, h]
    · simp [firstMatch, h, ih]

theorem rolesMatch_eq_findSome (rs : List RoleState) (perm : Perm) :
    rolesMatch rs perm = rs.findSome? (fun r => firstRule r.rules perm) := by
  induction rs with
  | nil => rfl
  | cons r rest ih =>
    simp only [rolesMatch, List.findSome?_cons, firstMatch_eq_firstRule]
    cases firstRule r.rules perm <;> simp [ih]

theorem rolesGateMatch_eq_findSome (rs : List RoleState) (g : Iden) (perm : Perm) :
    rolesGateMatch rs g perm =
      rs.findSome? (fun r => (lookupA r.authgates g).bind
        (fun ov => firstRule ov.rules perm)) := by
  induction rs with
  | nil => rfl
  | cons r rest ih =>
    simp only [rolesGateMatch, List.findSome?_cons]
    cases hlk : lookupA r.authgates g with
    | none => simp [hlk, ih]
    | some info =>
      simp only [hlk, Option.some_bind, firstMatch_eq_firstRule]
      cases hfm : firstRule info.rules perm <;> simp [hfm, ih]

/-- Claim C1: for every user, permission, default value and optional
gate, the evaluator `_allowed` equals the seven-step reference
evaluation (locked; admin; gate user overlay with its admin flag then
first matching overlay rule; first matching user global rule; per-role
gate overlay rules in role order; global role rules in role order;
default), where a rule matches iff its path is a prefix of the
permission, equal length counting as a prefix. -/
theorem allowed_eq_reference (st : AuthState) (u : UserState) (perm : Perm)
    (dflt : Option Bool) (gate : Option Iden) :
    userAllowed st u perm dflt gate = allowedSpec st u perm dflt gate := by
  unfold userAllowed allowedSpec
  by_cases hl : u.locked
  · simp [hl]
  · by_cases ha : u.admin
    · simp [hl, ha]
    · simp only [hl, ha, if_false, Bool.false_eq_true]
      cases gate with
      | none =>
        simp only [Option.none_bind]
        rw [firstMatch_eq_firstRule, rolesMatch_eq_findSome]
        cases firstRule u.rules perm with
        | some v => simp [firstDetermined]
        | none =>
          cases (resolveRoles st u).findSome? (fun r => firstRule r.rules perm) <;>
            simp [firstDetermined]
      | some g =>
        simp only [Option.some_bind]
        have e1 : gateUserStep u perm g = (lookupA u.authgates g).bind
            (fun ov => if ov.admin then some true else firstRule ov.rules perm) := by
          unfold gateUserStep
          cases hlk : lookupA u.authgates g with
          | none => simp
          | some info => simp [firstMatch_eq_firstRule]
        rw [e1, firstMatch_eq_firstRule, rolesGateMatch_eq_findSome,
          rolesMatch_eq_findSome]
        cases (lookupA u.authgates g).bind
            (fun ov => if ov.admin then some true else firstRule ov.rules perm) with
        | some v => simp [firstDetermined]
        | none =>
          cases firstRule u.rules perm with
          | some v => simp [firstDetermined]
          | none =>
            cases (resolveRoles st u).findSome? (fun r =>
                (lookupA r.authgates g).bind (fun ov => firstRule ov.rules perm)) with
            | some v => simp [firstDetermined]
            | none =>
              cases (resolveRoles st u).findSome? (fun r => firstRule r.rules perm) <;>
                simp [firstDetermined]

/-- Claim C2: a locked user is always denied (even an admin), and a
non-locked global admin is always allowed, for every permission,
default and gate. -/
theorem locked_denied_admin_allowed (st : AuthState) (u : UserState)
    (perm : Perm) (dflt : Option Bool) (gate : Option Iden) :
    (u.locked = true → userAllowed st u perm dflt gate = some false) ∧
    (u.locked = false → u.admin = true → userAllowed st u perm dflt gate = some true) := by
  constructor
  · intro h
    simp [userAllowed, h]
  · intro h ha
    simp [userAllowed, h, ha]

/-- Witness for claim C2 at a concrete locked admin and a concrete
non-locked admin. -/
theorem locked_denied_admin_allowed_witness :
    userAllowed {} { name := "a", admin := true, locked := true } ["foo"] none none = some false ∧
    userAllowed {} { name := "b", admin := true, locked := false } ["foo"] none none = some true :=
  ⟨(locked_denied_admin_allowed {} { name := "a", admin := true, locked := true }
      ["foo"] none none).1 rfl,
   (locked_denied_admin_allowed {} { name := "b", admin := true, locked := false }
      ["foo"] none none).2 rfl rfl⟩


/-! ### Association-list lemmas -/

theorem lookupA_nil {α : Type} (i : Iden) : lookupA ([] : List (Iden × α)) i = none := rfl

theorem lookupA_cons {α : Type} (p : Iden × α) (l : List (Iden × α)) (i : Iden) :
    lookupA (p :: l) i = if p.1 = i then some p.2 else lookupA l i := by
  by_cases h : p.1 = i
  · have hb : (p.1 == i) = true := beq_iff_eq.mpr h
    simp [lookupA, List.find?_cons, hb, h]
  · have hb : (p.1 == i) = false := beq_eq_false_iff_ne.mpr h
    simp [lookupA, List.find?_cons, hb, h]

theorem lookupA_mem {α : Type} {l : List (Iden × α)} {i : Iden} {v : α}
    (h : lookupA l i = some v) : (i, v) ∈ l := by
  induction l with
  | nil => simp [lookupA] at h
  | cons p l ih =>
    rw [lookupA_cons] at h
    by_cases hp : p.1 = i
    · rw [if_pos hp] at h
      have hv : p.2 = v := by injection h
      have : p = (i, v) := by
        obtain ⟨a, b⟩ := p
        simp only at hp hv
        rw [hp, hv]
      rw [← this]
      exact List.mem_cons_self p l
    · rw [if_neg hp] at h
      exact List.mem_cons_of_mem p (ih h)

theorem lookupA_eq_none_iff {α : Type} {l : List (Iden × α)} {i : Iden} :
    lookupA l i = none ↔ ∀ p ∈ l, p.1 ≠ i := by
  induction l with
  | nil => simp [lookupA]
  | cons p l ih =>
    rw [lookupA_cons]
    by_cases hp : p.1 = i
    · simp [hp]
    · simp [hp, ih]

theorem lookupA_setA {α : Type} (l : List (Iden × α)) (i : Iden) (f : α → α) (j : Iden) :
    lookupA (setA l i f) j = if j = i then (lookupA l j).map f else lookupA l j := by
  induction l with
  | nil => by_cases h : j = i <;> simp [setA, lookupA, h]
  | cons p l ih =>
    by_cases hpi : p.1 = i <;> by_cases hji : j = i <;>
      by_cases hpj : p.1 = j <;>
      simp_all [setA, lookupA_cons, List.map_cons]

theorem lookupA_removeA {α : Type} (l : List (Iden × α)) (i : Iden) (j : Iden) :
    lookupA (removeA l i) j = if j = i then none else lookupA l j := by
  induction l with
  | nil => by_cases h : j = i <;> simp [removeA, lookupA, h]
  | cons p l ih =>
    by_cases hpi : p.1 = i <;> by_cases hji : j = i <;>
      by_cases hpj : p.1 = j <;>
      simp_all [removeA, lookupA_cons, List.filter_cons]

theorem lookupA_append_single {α : Type} (l : List (Iden × α)) (i : Iden) (v : α)
    (j : Iden) :
    lookupA (l ++ [(i, v)]) j =
      match lookupA l j with
      | some x => some x
      | none => if j = i then some v else none := by
  induction l with
  | nil =>
    by_cases h : j = i
    · simp [lookupA_cons, lookupA, h]
    · simp [lookupA_cons, lookupA, h, Ne.symm h]
  | cons p l ih =>
    by_cases hpj : p.1 = j <;> simp [lookupA_cons, hpj, ih]

theorem lookupA_keyMap {α : Type} (l : List (Iden × α)) (F : Iden × α → α) (j : Iden) :
    lookupA (l.map (fun p => (p.1, F p))) j =
      (l.find? (fun p => p.1 == j)).map F := by
  induction l with
  | nil => simp [lookupA]
  | cons p l ih =>
    by_cases hpj : p.1 = j <;> simp [lookupA_cons, List.find?_cons, hpj, ih]

/-! ### Extensionality of the evaluator -/

theorem resolve_rolesMatch_ext (st st' : AuthState) (l : List Iden) (p : Perm)
    (h : ∀ j ∈ l, roleView st' j = roleView st j ∨
         (roleView st j = none ∧ roleView st' j = some ([], []))) :
    rolesMatch (l.filterMap (fun i => lookupA st'.roles i)) p =
      rolesMatch (l.filterMap (fun i => lookupA st.roles i)) p := by
  induction l with
  | nil => rfl
  | cons j l ih =>
    have hmem := h j (List.mem_cons_self j l)
    have hrest : ∀ i ∈ l, roleView st' i = roleView st i ∨
        (roleView st i = none ∧ roleView st' i = some ([], [])) :=
      fun i hi => h i (List.mem_cons_of_mem j hi)
    simp only [List.filterMap_cons]
    rcases hmem with heq | ⟨hn, hi⟩
    · cases h1 : lookupA st'.roles j with
      | none =>
        have h2 : lookupA st.roles j = none := by
          have := heq
          simp only [roleView, h1, Option.map_none'] at this
          exact Option.map_eq_none'.mp this.symm
        simp [h1, h2, ih hrest]
      | some r' =>
        have : (lookupA st.roles j).map (fun r => (r.rules, r.authgates)) =
            some (r'.rules, r'.authgates) := by
          have := heq
          simp only [roleView, h1, Option.map_some'] at this
          exact this.symm
        obtain ⟨r, h2, hrv⟩ := Option.map_eq_some'.mp this
        have hrules : r.rules = r'.rules := by
          have := congrArg Prod.fst hrv
          simpa using this
        simp only [h1, h2, rolesMatch, hrules]
        cases firstMatch r'.rules p <;> simp [ih hrest]
    · have h2 : lookupA st.roles j = none := Option.map_eq_none'.mp hn
      obtain ⟨r', h1, hrv⟩ := Option.map_eq_some'.mp hi
      have hrules : r'.rules = [] := by
        have := congrArg Prod.fst hrv
        simpa using this
      simp only [h1, h2, rolesMatch, hrules, firstMatch]
      exact ih hrest

theorem resolve_rolesGateMatch_ext (st st' : AuthState) (l : List Iden) (g : Iden)
    (p : Perm)
    (h : ∀ j ∈ l, roleView st' j = roleView st j ∨
         (roleView st j = none ∧ roleView st' j = some ([], []))) :
    rolesGateMatch (l.filterMap (fun i => lookupA st'.roles i)) g p =
      rolesGateMatch (l.filterMap (fun i => lookupA st.roles i)) g p := by
  induction l with
  | nil => rfl
  | cons j l ih =>
    have hmem := h j (List.mem_cons_self j l)
    have hrest : ∀ i ∈ l, roleView st' i = roleView st i ∨
        (roleView st i = none ∧ roleView st' i = some ([], [])) :=
      fun i hi => h i (List.mem_cons_of_mem j hi)
    simp only [List.filterMap_cons]
    rcases hmem with heq | ⟨hn, hi⟩
    · cases h1 : lookupA st'.roles j with
      | none =>
        have h2 : lookupA st.roles j = none := by
          have := heq
          simp only [roleView, h1, Option.map_none'] at this
          exact Option.map_eq_none'.mp this.symm
        simp [h1, h2, ih hrest]
      | some r' =>
        have : (lookupA st.roles j).map (fun r => (r.rules, r.authgates)) =
            some (r'.rules, r'.authgates) := by
          have := heq
          simp only [roleView, h1, Option.map_some'] at this
          exact this.symm
        obtain ⟨r, h2, hrv⟩ := Option.map_eq_some'.mp this
        have hgates : r.authgates = r'.authgates := by
          have := congrArg Prod.snd hrv
          simpa using this
        simp only [h1, h2, rolesGateMatch, hgates]
        cases lookupA r'.authgates g with
        | none => exact ih hrest
        | some info => cases firstMatch info.rules p <;> simp [ih hrest]
    · have h2 : lookupA st.roles j = none := Option.map_eq_none'.mp hn
      obtain ⟨r', h1, hrv⟩ := Option.map_eq_some'.mp hi
      have hgates : r'.authgates = [] := by
        have := congrArg Prod.snd hrv
        simpa using this
      simp only [h1, h2, rolesGateMatch, hgates, lookupA_nil]
      exact ih hrest

/-- The decision evaluator depends only on the user's locked, admin,
overlay and rule fields, the role iden list, and on the rules and
overlays of the resolvable roles (names, passwords and caches are
irrelevant; a role that newly resolves to an empty-rule, overlay-free
role state is also irrelevant). -/
theorem userAllowed_ext (st st' : AuthState) (u u' : UserState)
    (h1 : u'.locked = u.locked) (h2 : u'.admin = u.admin)
    (h3 : u'.authgates = u.authgates) (h4 : u'.rules = u.rules)
    (h5 : u'.roles = u.roles)
    (h6 : ∀ j ∈ u.roles, roleView st' j = roleView st j ∨
          (roleView st j = none ∧ roleView st' j = some ([], [])))
    (p : Perm) (d : Option Bool) (g : Option Iden) :
    userAllowed st' u' p d g = userAllowed st u p d g := by
  have hrm : rolesMatch (resolveRoles st' u') p = rolesMatch (resolveRoles st u) p := by
    unfold resolveRoles
    rw [h5]
    exact resolve_rolesMatch_ext st st' u.roles p h6
  have hrg : ∀ gg, rolesGateMatch (resolveRoles st' u') gg p =
      rolesGateMatch (resolveRoles st u) gg p := by
    intro gg
    unfold resolveRoles
    rw [h5]
    exact resolve_rolesGateMatch_ext st st' u.roles gg p h6
  have hgu : ∀ gg, gateUserStep u' p gg = gateUserStep u p gg := by
    intro gg
    unfold gateUserStep
    rw [h3]
  unfold userAllowed
  rw [h1, h2, h4]
  cases g with
  | none => simp only [hrm]
  | some gg => simp only [hgu gg, hrg gg, hrm]

/-- Special case: a state change that leaves the role map unchanged
cannot change any user's evaluation. -/
theorem userAllowed_roles_eq (st st' : AuthState) (u : UserState)
    (h : st'.roles = st.roles) (p : Perm) (d : Option Bool) (g : Option Iden) :
    userAllowed st' u p d g = userAllowed st u p d g :=
  userAllowed_ext st st' u u rfl rfl rfl rfl rfl
    (fun j _ => Or.inl (by rw [roleView, roleView, h])) p d g

/-! ### Helper lemmas on the operations -/

theorem setUserInfoOp_none_eq (st : AuthState) (iden : Iden) (v : UVal)
    (u : UserState) (hu : lookupA st.users iden = some u) :
    setUserInfoOp st iden v none =
      ({ st with users := setA st.users iden (fun w => clearCache (applyUVal w v)) },
       none) := by
  simp [setUserInfoOp, hu]

theorem s_common_guid_inj (salt p p' : String)
    (h : s_common_guid (salt, p') = s_common_guid (salt, p)) : p' = p := by
  simp only [s_common_guid] at h
  have hd := congrArg String.data h
  simp only [String.data_append, List.append_assoc] at hd
  exact String.ext (List.append_cancel_left (List.append_cancel_left hd))

/-! ### Claim C5 -/

/-- Claim C5: `setPasswd` raises `BadArg` exactly on an empty or
non-string value; after a successful `setPasswd(p)` on a user who is
not locked, `tryPasswd(p)` is true and `tryPasswd(p')` is false for
every string distinct from `p`; and after `setLocked(true)` every
`tryPasswd` is false. -/
theorem passwd_law :
    (∀ (st : AuthState) (uid : Iden) (arg : PyStrArg) (salt : String),
       (runOp (.setPasswd uid arg salt) st).2 = some .badArg ↔
         (arg = .pyNonStr ∨ arg = .pyStr "")) ∧
    (∀ (st st' : AuthState) (uid : Iden) (p salt : String) (u' : UserState),
       runOp (.setPasswd uid (.pyStr p) salt) st = (st', none) →
       lookupA st'.users uid = some u' →
       u'.locked = false →
       (tryPasswd u' (some p) = true ∧
        ∀ p' : String, p' ≠ p → tryPasswd u' (some p') = false)) ∧
    (∀ (st st' : AuthState) (uid : Iden) (u' : UserState) (q : Option String),
       runOp (.setLocked uid true) st = (st', none) →
       lookupA st'.users uid = some u' →
       tryPasswd u' q = false) := by
  refine ⟨?_, ?_, ?_⟩
  · intro st uid arg salt
    cases arg with
    | pyNonStr => simp [runOp, setPasswdOp]
    | pyStr p =>
      by_cases hp : p = ""
      · simp [runOp, setPasswdOp, hp]
      · cases hu : lookupA st.users uid with
        | none => simp [runOp, setPasswdOp, hp, hu]
        | some u => simp [runOp, setPasswdOp, hp, hu]
  · intro st st' uid p salt u' hrun hu' hlock
    simp only [runOp, setPasswdOp] at hrun
    by_cases hp : p = ""
    · simp [hp] at hrun
    · rw [if_neg hp] at hrun
      cases hu : lookupA st.users uid with
      | none => rw [hu] at hrun; simp at hrun
      | some u =>
        rw [hu] at hrun
        have hst' := congrArg Prod.fst hrun
        simp only at hst'
        rw [← hst'] at hu'
        rw [lookupA_setA, if_pos rfl, hu] at hu'
        simp only [Option.map_some'] at hu'
        have hu'' : u' = { u with passwd := some (salt, s_common_guid (salt, p)) } :=
          (Option.some.injEq _ _ ▸ hu').symm
        have hlock' : u.locked = false := by
          rw [hu''] at hlock
          exact hlock
        constructor
        · rw [hu'']
          simp [tryPasswd, hlock']
        · intro p' hne
          rw [hu'']
          have hbeq : (s_common_guid (salt, p') == s_common_guid (salt, p)) = false :=
            beq_eq_false_iff_ne.mpr (fun hc => hne (s_common_guid_inj salt p p' hc))
          simp [tryPasswd, hlock', hbeq]
  · intro st st' uid u' q hrun hu'
    simp only [runOp] at hrun
    cases hu : lookupA st.users uid with
    | none => simp [setUserInfoOp, hu] at hrun
    | some u =>
      rw [setUserInfoOp_none_eq st uid (.locked true) u hu] at hrun
      have hst' := congrArg Prod.fst hrun
      simp only at hst'
      rw [← hst'] at hu'
      rw [lookupA_setA, if_pos rfl, hu] at hu'
      simp only [Option.map_some'] at hu'
      have hu'' : u' = clearCache (applyUVal u (.locked true)) :=
        (Option.some.injEq _ _ ▸ hu').symm
      rw [hu'']
      simp [tryPasswd, clearCache, applyUVal]

/-- Witness for claim C5: a concrete password set on the bootstrapped
root user; the right password passes, a different one fails, and the
locked user fails; the `BadArg` characterization holds at a concrete
bad argument. -/
theorem passwd_law_witness :
    ((runOp (.setPasswd "r0" (.pyStr "") "s0") (initAuth "a0" "r0")).2 = some .badArg ↔
      ((.pyStr "" : PyStrArg) = .pyNonStr ∨ (.pyStr "" : PyStrArg) = .pyStr "")) ∧
    tryPasswd { name := "root", admin := true,
                passwd := some ("s0", s_common_guid ("s0", "secret")),
                roles := ["a0"] } (some "secret") = true ∧
    tryPasswd { name := "root", admin := true,
                passwd := some ("s0", s_common_guid ("s0", "secret")),
                roles := ["a0"] } (some "other") = false ∧
    tryPasswd { name := "root", admin := true, locked := true,
                passwd := some ("s0", s_common_guid ("s0", "secret")),
                roles := ["a0"], cache := [] } (some "secret") = false := by
  refine ⟨passwd_law.1 (initAuth "a0" "r0") "r0" (.pyStr "") "s0", ?_, ?_, ?_⟩
  · exact ((passwd_law.2.1 (initAuth "a0" "r0")
      ((runOp (.setPasswd "r0" (.pyStr "secret") "s0") (initAuth "a0" "r0")).1)
      "r0" "secret" "s0" _ (by decide) (by decide) (by decide)).1)
  · exact ((passwd_law.2.1 (initAuth "a0" "r0")
      ((runOp (.setPasswd "r0" (.pyStr "secret") "s0") (initAuth "a0" "r0")).1)
      "r0" "secret" "s0" _ (by decide) (by decide) (by decide)).2 "other" (by decide))
  · exact passwd_law.2.2
      ((runOp (.setPasswd "r0" (.pyStr "secret") "s0") (initAuth "a0" "r0")).1)
      ((runOp (.setLocked "r0" true)
        ((runOp (.setPasswd "r0" (.pyStr "secret") "s0") (initAuth "a0" "r0")).1)).1)
      "r0"
      { name := "root", admin := true, locked := true,
        passwd := some ("s0", s_common_guid ("s0", "secret")),
        roles := ["a0"], cache := [] }
      (some "secret") (by decide) (by decide)

/-! ### Claim C6 -/

/-- Claim C6: granting a role already held is a no-op, so performing
`grant(r)` twice leaves the same state as performing it once (the roles
list never gains a duplicate); and `revoke(r)` on a user who does not
hold `r` leaves the state unchanged. -/
theorem grant_revoke_laws :
    (∀ (st st₁ : AuthState) (uid : Iden) (rn : String) (i₁ i₂ : Option Nat),
       runOp (.grant uid rn i₁) st = (st₁, none) →
       runOp (.grant uid rn i₂) st₁ = (st₁, none)) ∧
    (∀ (st : AuthState) (uid : Iden) (rn : String) (rid : Iden) (r : RoleState)
       (u : UserState),
       findRoleByName st.roles rn = some (rid, r) →
       lookupA st.users uid = some u → rid ∉ u.roles →
       (runOp (.revoke uid rn) st).1 = st) := by
  constructor
  · intro st st₁ uid rn i₁ i₂ h
    have hmem : ∀ (roles : List Iden) (rid : Iden) (i : Option Nat),
        rid ∈ grantNewRoles roles rid i := by
      intro roles rid i
      cases i with
      | none => simp [grantNewRoles]
      | some k =>
        by_cases hlen : roles.length ≤ k
        · simp [grantNewRoles, hlen]
        · rw [grantNewRoles, if_neg hlen]
          exact (List.mem_insertIdx (Nat.le_of_lt (Nat.lt_of_not_le hlen))).mpr
            (Or.inl rfl)
    have hconv : ∀ (s : AuthState) (i : Option Nat) (rid : Iden) (r : RoleState)
        (u : UserState),
        findRoleByName s.roles rn = some (rid, r) → lookupA s.users uid = some u →
        runOp (.grant uid rn i) s =
          (if rid ∈ u.roles then (s, none)
           else setUserInfoOp s uid (.uroles (grantNewRoles u.roles rid i)) none) := by
      intro s i rid r u hr hu
      simp [runOp, grantOp, hr, hu]
    cases hr : findRoleByName st.roles rn with
    | none => simp [runOp, grantOp, hr] at h
    | some q =>
      obtain ⟨rid, r⟩ := q
      cases hu : lookupA st.users uid with
      | none => simp [runOp, grantOp, hr, hu] at h
      | some u =>
        rw [hconv st i₁ rid r u hr hu] at h
        by_cases hm : rid ∈ u.roles
        · rw [if_pos hm] at h
          have hst : st = st₁ := congrArg Prod.fst h
          rw [hconv st₁ i₂ rid r u (hst ▸ hr) (hst ▸ hu), if_pos hm]
        · rw [if_neg hm, setUserInfoOp_none_eq st uid _ u hu] at h
          have hst : st₁ = { st with users := setA st.users uid (fun w =>
              clearCache (applyUVal w (.uroles (grantNewRoles u.roles rid i₁)))) } :=
            (congrArg Prod.fst h).symm
          have hr1 : findRoleByName st₁.roles rn = some (rid, r) := by
            rw [hst]
            exact hr
          have hu1 : lookupA st₁.users uid =
              some (clearCache (applyUVal u (.uroles (grantNewRoles u.roles rid i₁)))) := by
            rw [hst]
            show lookupA (setA st.users uid (fun w =>
                clearCache (applyUVal w (.uroles (grantNewRoles u.roles rid i₁))))) uid =
              some (clearCache (applyUVal u (.uroles (grantNewRoles u.roles rid i₁))))
            rw [lookupA_setA, if_pos rfl, hu, Option.map_some']
          rw [hconv st₁ i₂ rid r _ hr1 hu1]
          rw [if_pos (by simpa [clearCache, applyUVal] using hmem u.roles rid i₁)]
  · intro st uid rn rid r u hr hu hm
    by_cases hall : r.name = "all"
    · simp [runOp, revokeOp, hr, hall]
    · have hb : (r.name == "all") = false := beq_eq_false_iff_ne.mpr hall
      simp [runOp, revokeOp, hr, hu, hb, hm]

/-- Witness for claim C6: a concrete double grant of `ops` to root, and
a concrete revoke of a role root does not hold. -/
theorem grant_revoke_laws_witness :
    runOp (.grant "r0" "ops" none)
        ((runOp (.grant "r0" "ops" none)
          ⟨[("r0", { name := "root", admin := true, roles := ["a0"] })],
           [("a0", { name := "all" }), ("b0", { name := "ops" })], []⟩).1) =
      ((runOp (.grant "r0" "ops" none)
          ⟨[("r0", { name := "root", admin := true, roles := ["a0"] })],
           [("a0", { name := "all" }), ("b0", { name := "ops" })], []⟩).1, none) ∧
    (runOp (.revoke "r0" "ops")
        ⟨[("r0", { name := "root", admin := true, roles := ["a0"] })],
         [("a0", { name := "all" }), ("b0", { name := "ops" })], []⟩).1 =
      ⟨[("r0", { name := "root", admin := true, roles := ["a0"] })],
       [("a0", { name := "all" }), ("b0", { name := "ops" })], []⟩ := by
  constructor
  · exact grant_revoke_laws.1
      ⟨[("r0", { name := "root", admin := true, roles := ["a0"] })],
       [("a0", { name := "all" }), ("b0", { name := "ops" })], []⟩
      ((runOp (.grant "r0" "ops" none)
        ⟨[("r0", { name := "root", admin := true, roles := ["a0"] })],
         [("a0", { name := "all" }), ("b0", { name := "ops" })], []⟩).1)
      "r0" "ops" none none (by decide)
  · exact grant_revoke_laws.2
      ⟨[("r0", { name := "root", admin := true, roles := ["a0"] })],
       [("a0", { name := "all" }), ("b0", { name := "ops" })], []⟩
      "r0" "ops" "b0" { name := "ops" }
      { name := "root", admin := true, roles := ["a0"] }
      (by decide) (by decide) (by decide)

/-! ### Claim C7 -/

/-- Counterexample to claim C7 as stated: `archived ⇒ locked` is not
preserved by every subsequent operation — in the reachable state
obtained by `setArchived(true)` then `setLocked(false)`, the root user
is archived but not locked. -/
theorem archived_implies_locked_cex :
    Reach (initAuth "a0" "r0") c7CexState ∧
    (runOp (.setLocked "r0" false) c7CexMid).2 = none ∧
    (lookupA c7CexState.users "r0").map UserState.archived = some true ∧
    (lookupA c7CexState.users "r0").map UserState.locked = some false := by
  refine ⟨?_, by decide, by decide, by decide⟩
  exact Reach.step _ c7CexMid _ (.setLocked "r0" false)
    (Reach.step _ _ _ (.setArchived "r0" true) (Reach.refl _) trivial (by decide))
    trivial (by decide)

/-- Claim C7 (amended): `setArchived(true)` additionally sets the
locked flag, so immediately after a successful `setArchived(true)` the
user is both archived and locked; but the implication `archived ⇒
locked` is not an invariant — a later `setLocked(false)` unlocks the
still-archived user. -/
theorem setArchived_locks (st st' : AuthState) (uid : Iden) (u' : UserState)
    (hrun : runOp (.setArchived uid true) st = (st', none))
    (hu : lookupA st'.users uid = some u') :
    u'.archived = true ∧ u'.locked = true := by
  cases hu0 : lookupA st.users uid with
  | none => simp [runOp, setArchivedOp, setUserInfoOp, hu0] at hrun
  | some u =>
    have hkey : runOp (.setArchived uid true) st =
        ({ st with users := setA (setA st.users uid (fun w =>
            clearCache (applyUVal w (.archived true)))) uid (fun w =>
            clearCache (applyUVal w (.locked true))) }, none) := by
      simp [runOp, setArchivedOp, setUserInfoOp, hu0, lookupA_setA]
    rw [hkey] at hrun
    have hst' : st' = { st with users := setA (setA st.users uid (fun w =>
        clearCache (applyUVal w (.archived true)))) uid (fun w =>
        clearCache (applyUVal w (.locked true))) } := (congrArg Prod.fst hrun).symm
    have hlook : lookupA (setA (setA st.users uid (fun w =>
        clearCache (applyUVal w (.archived true)))) uid (fun w =>
        clearCache (applyUVal w (.locked true)))) uid =
        some (clearCache (applyUVal (clearCache (applyUVal u (.archived true)))
          (.locked true))) := by
      rw [lookupA_setA, if_pos rfl, lookupA_setA, if_pos rfl, hu0]
      rfl
    rw [hst'] at hu
    have heq : some (clearCache (applyUVal (clearCache (applyUVal u (.archived true)))
        (.locked true))) = some u' := by
      rw [← hlook]
      exact hu
    have hfin : clearCache (applyUVal (clearCache (applyUVal u (.archived true)))
        (.locked true)) = u' := by
      injection heq
    rw [← hfin]
    simp [clearCache, applyUVal]

/-- Witness for the amended claim C7 at the bootstrapped state. -/
theorem setArchived_locks_witness :
    ({ name := "root", admin := true, locked := true, archived := true,
       roles := ["a0"], cache := [] } : UserState).archived = true ∧
    ({ name := "root", admin := true, locked := true, archived := true,
       roles := ["a0"], cache := [] } : UserState).locked = true :=
  setArchived_locks (initAuth "a0" "r0") c7CexMid "r0"
    { name := "root", admin := true, locked := true, archived := true,
      roles := ["a0"], cache := [] }
    (by decide) (by decide)

/-! ### Claim C8 -/

/-- Counterexample to claim C8 as stated: the `all` role does not exist
in every reachable state — renaming it and then deleting it by its new
name yields a reachable state with no roles at all. -/
theorem protected_singletons_cex :
    Reach (initAuth "a0" "r0") c8CexState ∧
    c8CexState.roles = [] ∧
    findRoleByName c8CexState.roles "all" = none := by
  refine ⟨?_, by decide, by decide⟩
  exact Reach.step _ c8CexMid _ (.delRole "x")
    (Reach.step _ _ _ (.setRoleName "a0" "x") (Reach.refl _) trivial (by decide))
    trivial (by decide)

/-- Claim C8 (amended): `delUser("root")` always raises
`CantDelRootUser` with the state unchanged, `delRole("all")` always
raises `CantDelAllRole` with the state unchanged, and whenever a role
named `all` exists, revoking it from any user raises
`CantRevokeAllRole` with the state unchanged; these guards are by
current name, so the bootstrap singletons are protected only while they
keep their bootstrap names. -/
theorem protected_singletons :
    (∀ st : AuthState, runOp (.delUser "root") st = (st, some .cantDelRootUser)) ∧
    (∀ st : AuthState, runOp (.delRole "all") st = (st, some .cantDelAllRole)) ∧
    (∀ (st : AuthState) (uid rid : Iden) (r : RoleState),
       findRoleByName st.roles "all" = some (rid, r) →
       runOp (.revoke uid "all") st = (st, some .cantRevokeAllRole)) := by
  refine ⟨?_, ?_, ?_⟩
  · intro st
    simp [runOp, delUserOp]
  · intro st
    simp [runOp, delRoleOp]
  · intro st uid rid r hr
    have hfind : List.find? (fun p => p.2.name == "all") st.roles = some (rid, r) := hr
    have hall := List.find?_some hfind
    simp only at hall
    simp [runOp, revokeOp, hr, hall]

/-- Witness for the amended claim C8 at the bootstrapped state. -/
theorem protected_singletons_witness :
    runOp (.delUser "root") (initAuth "a0" "r0") =
      (initAuth "a0" "r0", some .cantDelRootUser) ∧
    runOp (.delRole "all") (initAuth "a0" "r0") =
      (initAuth "a0" "r0", some .cantDelAllRole) ∧
    runOp (.revoke "r0" "all") (initAuth "a0" "r0") =
      (initAuth "a0" "r0", some .cantRevokeAllRole) :=
  ⟨protected_singletons.1 (initAuth "a0" "r0"),
   protected_singletons.2.1 (initAuth "a0" "r0"),
   protected_singletons.2.2 (initAuth "a0" "r0") "r0" "a0" { name := "all" } (by decide)⟩

/-! ### Claim C9 -/

/-- Counterexample to claim C9 as stated: neither `setUserName` nor
`setRoleName` clears any decision cache — after a successful rename of
the root user, and then of the (held) `all` role, root's memoized entry
is still present. -/
theorem setname_clears_cache_cex :
    Reach (initAuth "a0" "r0") c9CexState2 ∧
    (runOp (.setUserName "r0" "admin") c9CexBase).2 = none ∧
    (runOp (.setRoleName "a0" "everyone") c9CexState).2 = none ∧
    (lookupA c9CexState.users "r0").map UserState.cache =
      some [((["foo"], none, none), some true)] ∧
    (lookupA c9CexState2.users "r0").map UserState.cache =
      some [((["foo"], none, none), some true)] := by
  refine ⟨?_, by decide, by decide, rfl, rfl⟩
  exact Reach.step _ c9CexState _ (.setRoleName "a0" "everyone")
    (Reach.step _ c9CexBase _ (.setUserName "r0" "admin")
      (Reach.step _ _ _ (.query "r0" (["foo"], none, none)) (Reach.refl _)
        trivial (by decide))
      trivial (by decide))
    trivial (by decide)

/-- Claim C9 (amended): a successful `setUserName` or `setRoleName`
leaves every user's decision cache untouched (no cache is cleared);
this cannot leave a stale entry because renaming changes no `allowed`
decision of any user. -/
theorem setname_cache_untouched :
    (∀ (st st' : AuthState) (iden : Iden) (n : String),
       runOp (.setUserName iden n) st = (st', none) →
       (∀ j, (lookupA st'.users j).map UserState.cache =
             (lookupA st.users j).map UserState.cache) ∧
       (∀ (j : Iden) (u u' : UserState) (p : Perm) (d : Option Bool) (g : Option Iden),
          lookupA st.users j = some u → lookupA st'.users j = some u' →
          userAllowed st' u' p d g = userAllowed st u p d g)) ∧
    (∀ (st st' : AuthState) (iden : Iden) (n : String),
       runOp (.setRoleName iden n) st = (st', none) →
       (∀ j, (lookupA st'.users j).map UserState.cache =
             (lookupA st.users j).map UserState.cache) ∧
       (∀ (j : Iden) (u u' : UserState) (p : Perm) (d : Option Bool) (g : Option Iden),
          lookupA st.users j = some u → lookupA st'.users j = some u' →
          userAllowed st' u' p d g = userAllowed st u p d g)) := by
  constructor
  · intro st st' iden n hrun
    cases hdup : findUserByName st.users n with
    | some q => simp [runOp, setUserNameOp, hdup] at hrun
    | none =>
      cases ht : lookupA st.users iden with
      | none => simp [runOp, setUserNameOp, hdup, ht] at hrun
      | some u0 =>
        have hkey : runOp (.setUserName iden n) st =
            ({ st with users := setA st.users iden (fun u => { u with name := n }) },
             none) := by
          simp [runOp, setUserNameOp, hdup, ht]
        rw [hkey] at hrun
        have hst' : st' =
            { st with users := setA st.users iden (fun u => { u with name := n }) } :=
          (congrArg Prod.fst hrun).symm
        subst hst'
        constructor
        · intro j
          show (lookupA (setA st.users iden (fun u => { u with name := n })) j).map
              UserState.cache = _
          rw [lookupA_setA]
          by_cases hj : j = iden
          · rw [if_pos hj]
            cases lookupA st.users j <;> rfl
          · rw [if_neg hj]
        · intro j u u' p d g hu hu'
          have hu'' : lookupA (setA st.users iden (fun u => { u with name := n })) j =
              some u' := hu'
          rw [lookupA_setA] at hu''
          by_cases hj : j = iden
          · rw [if_pos hj, hu] at hu''
            have : { u with name := n } = u' := by
              injection hu''
            rw [← this]
            exact userAllowed_ext st _ u { u with name := n } rfl rfl rfl rfl rfl
              (fun _ _ => Or.inl rfl) p d g
          · rw [if_neg hj, hu] at hu''
            have : u = u' := by
              injection hu''
            rw [← this]
            exact userAllowed_roles_eq st _ u rfl p d g
  · intro st st' iden n hrun
    cases hdup : findRoleByName st.roles n with
    | some q => simp [runOp, setRoleNameOp, hdup] at hrun
    | none =>
      cases ht : lookupA st.roles iden with
      | none => simp [runOp, setRoleNameOp, hdup, ht] at hrun
      | some r0 =>
        have hkey : runOp (.setRoleName iden n) st =
            ({ st with roles := setA st.roles iden (fun r => { r with name := n }) },
             none) := by
          simp [runOp, setRoleNameOp, hdup, ht]
        rw [hkey] at hrun
        have hst' : st' =
            { st with roles := setA st.roles iden (fun r => { r with name := n }) } :=
          (congrArg Prod.fst hrun).symm
        subst hst'
        refine ⟨fun j => rfl, ?_⟩
        intro j u u' p d g hu hu'
        have huu : u = u' := by
          have h2 : lookupA st.users j = some u' := hu'
          rw [hu] at h2
          injection h2
        rw [← huu]
        refine userAllowed_ext st _ u u rfl rfl rfl rfl rfl ?_ p d g
        intro jj _
        left
        show (lookupA (setA st.roles iden (fun r => { r with name := n })) jj).map
            (fun r => (r.rules, r.authgates)) = roleView st jj
        rw [lookupA_setA]
        by_cases hjj : jj = iden
        · rw [if_pos hjj]
          show ((lookupA st.roles jj).map (fun r => { r with name := n })).map
              (fun r => (r.rules, r.authgates)) =
            (lookupA st.roles jj).map (fun r => (r.rules, r.authgates))
          cases lookupA st.roles jj <;> rfl
        · rw [if_neg hjj]
          rfl

/-- Witness for the amended claim C9: a concrete rename of the root
user with a memoized decision; the cache is untouched and root's
decision is unchanged. -/
theorem setname_cache_untouched_witness :
    (lookupA c9CexState.users "r0").map UserState.cache =
      (lookupA c9CexBase.users "r0").map UserState.cache ∧
    userAllowed c9CexState
        { name := "admin", admin := true, roles := ["a0"],
          cache := [((["foo"], none, none), some true)] } ["foo"] none none =
      userAllowed c9CexBase
        { name := "root", admin := true, roles := ["a0"],
          cache := [((["foo"], none, none), some true)] } ["foo"] none none :=
  ⟨(setname_cache_untouched.1 c9CexBase c9CexState "r0" "admin" (by decide)).1 "r0",
   (setname_cache_untouched.1 c9CexBase c9CexState "r0" "admin" (by decide)).2
     "r0" _ _ ["foo"] none none (by decide) (by decide)⟩

/-! ### Claim C10 -/

/-- Claim C10: for a user or a role, `delRule(rule, gate)` with the
rule present in the selected rule list returns true, raises nothing,
and replaces that list by the list with the first occurrence of the
rule removed; with the rule absent it returns false and leaves the
state entirely unchanged. -/
theorem delRule_spec :
    (∀ (st : AuthState) (uid : Iden) (u : UserState) (rule : Rule) (gate : Option Iden),
       lookupA st.users uid = some u →
       ((rule ∉ userGetRules u gate →
           userDelRule st uid rule gate = ((st, none), false)) ∧
        (rule ∈ userGetRules u gate →
           (userDelRule st uid rule gate).2 = true ∧
           (userDelRule st uid rule gate).1.2 = none ∧
           (lookupA (userDelRule st uid rule gate).1.1.users uid).map
               (fun u' => userGetRules u' gate) =
             some (removeFirst (userGetRules u gate) rule)))) ∧
    (∀ (st : AuthState) (rid : Iden) (r : RoleState) (rule : Rule) (gate : Option Iden),
       lookupA st.roles rid = some r →
       ((rule ∉ roleGetRules r gate →
           roleDelRule st rid rule gate = ((st, none), false)) ∧
        (rule ∈ roleGetRules r gate →
           (roleDelRule st rid rule gate).2 = true ∧
           (roleDelRule st rid rule gate).1.2 = none ∧
           (lookupA (roleDelRule st rid rule gate).1.1.roles rid).map
               (fun r' => roleGetRules r' gate) =
             some (removeFirst (roleGetRules r gate) rule)))) := by
  constructor
  · intro st uid u rule gate hu
    constructor
    · intro hab
      simp [userDelRule, hu, hab]
    · intro hmem
      cases gate with
      | none =>
        have hkey : userDelRule st uid rule none =
            ((setUserInfoOp st uid (.urules (removeFirst u.rules rule)) none), true) := by
          simp only [userDelRule, hu]
          rw [if_pos hmem]
          rfl
        rw [hkey, setUserInfoOp_none_eq st uid _ u hu]
        refine ⟨rfl, rfl, ?_⟩
        show (lookupA (setA st.users uid (fun w =>
            clearCache (applyUVal w (.urules (removeFirst u.rules rule))))) uid).map
            (fun u' => userGetRules u' none) = _
        rw [lookupA_setA, if_pos rfl, hu]
        rfl
      | some g =>
        cases hov : lookupA u.authgates g with
        | none =>
          exfalso
          simp [userGetRules, hov] at hmem
        | some gi =>
          have hrules : userGetRules u (some g) = gi.rules := by
            simp [userGetRules, hov]
          rw [hrules] at hmem
          have hkey : userDelRule st uid rule (some g) =
              ((setUserInfoOp st uid (.urules (removeFirst gi.rules rule)) (some g)),
               true) := by
            simp only [userDelRule, hu, hrules]
            rw [if_pos hmem]
          have hset : setUserInfoOp st uid (.urules (removeFirst gi.rules rule))
              (some g) =
              ({ st with users := setA st.users uid (fun w =>
                  clearCache { w with authgates := setA w.authgates g (fun og =>
                    applyUValGate og (.urules (removeFirst gi.rules rule))) }) },
               none) := by
            simp [setUserInfoOp, hu, hov]
          rw [hkey, hset, hrules]
          refine ⟨rfl, rfl, ?_⟩
          show (lookupA (setA st.users uid (fun w =>
              clearCache { w with authgates := setA w.authgates g (fun og =>
                applyUValGate og (.urules (removeFirst gi.rules rule))) })) uid).map
              (fun u' => userGetRules u' (some g)) = _
          rw [lookupA_setA, if_pos rfl, hu]
          show some (userGetRules (clearCache { u with authgates := setA u.authgates g (fun og => applyUValGate og (.urules (removeFirst gi.rules rule))) }) (some g)) = _
          simp only [userGetRules, clearCache]
          rw [lookupA_setA, if_pos rfl, hov]
          rfl
  · intro st rid r rule gate hr
    constructor
    · intro hab
      simp [roleDelRule, hr, hab]
    · intro hmem
      cases gate with
      | none =>
        have hkey : roleDelRule st rid rule none =
            ((setRoleInfoOp st rid (.rrules (removeFirst r.rules rule)) none), true) := by
          simp only [roleDelRule, hr]
          rw [if_pos hmem]
          rfl
        have hset : setRoleInfoOp st rid (.rrules (removeFirst r.rules rule)) none = ({ st with roles := setA st.roles rid (fun w => applyRVal w (.rrules (removeFirst r.rules rule))), users := clearUsersWithRole st.users rid }, none) := by
          simp [setRoleInfoOp, hr]
        rw [hkey, hset]
        refine ⟨rfl, rfl, ?_⟩
        show (lookupA (setA st.roles rid (fun w => applyRVal w (.rrules (removeFirst r.rules rule)))) rid).map (fun w => roleGetRules w none) = _
        rw [lookupA_setA, if_pos rfl, hr]
        rfl
      | some g =>
        cases hov : lookupA r.authgates g with
        | none =>
          exfalso
          simp [roleGetRules, hov] at hmem
        | some gi =>
          have hrules : roleGetRules r (some g) = gi.rules := by
            simp [roleGetRules, hov]
          rw [hrules] at hmem
          have hkey : roleDelRule st rid rule (some g) =
              ((setRoleInfoOp st rid (.rrules (removeFirst gi.rules rule)) (some g)),
               true) := by
            simp only [roleDelRule, hr, hrules]
            rw [if_pos hmem]
          have hset : setRoleInfoOp st rid (.rrules (removeFirst gi.rules rule)) (some g) = ({ st with roles := setA st.roles rid (fun w => { w with authgates := setA w.authgates g (fun og => applyRValGate og (.rrules (removeFirst gi.rules rule))) }), users := clearUsersWithRole st.users rid }, none) := by
            simp [setRoleInfoOp, hr, hov]
          rw [hkey, hset, hrules]
          refine ⟨rfl, rfl, ?_⟩
          show (lookupA (setA st.roles rid (fun w => { w with authgates := setA w.authgates g (fun og => applyRValGate og (.rrules (removeFirst gi.rules rule))) })) rid).map (fun w => roleGetRules w (some g)) = _
          rw [lookupA_setA, if_pos rfl, hr]
          show some (roleGetRules { r with authgates := setA r.authgates g (fun og => applyRValGate og (.rrules (removeFirst gi.rules rule))) } (some g)) = _
          simp only [roleGetRules]
          rw [lookupA_setA, if_pos rfl, hov]
          rfl

/-- Witness for claim C10: concrete rule deletions, present and absent,
on a user and on a role. -/
theorem delRule_spec_witness :
    userDelRule
        ⟨[("r0", { name := "root", rules := [(true, ["node"])], roles := ["a0"] })],
         [("a0", { name := "all", rules := [(false, ["del"])] })], []⟩
        "r0" (false, ["x"]) none =
      ((⟨[("r0", { name := "root", rules := [(true, ["node"])], roles := ["a0"] })],
         [("a0", { name := "all", rules := [(false, ["del"])] })], []⟩, none), false) ∧
    (userDelRule
        ⟨[("r0", { name := "root", rules := [(true, ["node"])], roles := ["a0"] })],
         [("a0", { name := "all", rules := [(false, ["del"])] })], []⟩
        "r0" (true, ["node"]) none).2 = true ∧
    (lookupA (userDelRule
        ⟨[("r0", { name := "root", rules := [(true, ["node"])], roles := ["a0"] })],
         [("a0", { name := "all", rules := [(false, ["del"])] })], []⟩
        "r0" (true, ["node"]) none).1.1.users "r0").map
        (fun u' => userGetRules u' none) = some [] ∧
    (roleDelRule
        ⟨[("r0", { name := "root", rules := [(true, ["node"])], roles := ["a0"] })],
         [("a0", { name := "all", rules := [(false, ["del"])] })], []⟩
        "a0" (false, ["del"]) none).2 = true := by
  refine ⟨?_, ?_, ?_, ?_⟩
  · exact (delRule_spec.1 _ "r0"
      { name := "root", rules := [(true, ["node"])], roles := ["a0"] }
      (false, ["x"]) none (by decide)).1 (by decide)
  · exact ((delRule_spec.1 _ "r0"
      { name := "root", rules := [(true, ["node"])], roles := ["a0"] }
      (true, ["node"]) none (by decide)).2 (by decide)).1
  · exact ((delRule_spec.1 _ "r0"
      { name := "root", rules := [(true, ["node"])], roles := ["a0"] }
      (true, ["node"]) none (by decide)).2 (by decide)).2.2
  · exact ((delRule_spec.2 _ "a0"
      { name := "all", rules := [(false, ["del"])] }
      (false, ["del"]) none (by decide)).2 (by decide)).1

/-! ### Cache coherence machinery for claim C3 -/

/-- A state change preserves coherence when every user entry of the new
state either has an empty cache or keeps the cache of an old entry
whose evaluation is unchanged. -/
theorem coherent_of_transfer (st st' : AuthState) (hC : Coherent st)
    (h : ∀ p' ∈ st'.users, (p' : Iden × UserState).2.cache = [] ∨
         ∃ p ∈ st.users, p'.2.cache = (p : Iden × UserState).2.cache ∧
           ∀ (pp : Perm) (d : Option Bool) (g : Option Iden),
             userAllowed st' p'.2 pp d g = userAllowed st p.2 pp d g) :
    Coherent st' := by
  intro p' hp' e he
  rcases h p' hp' with hc | ⟨p, hp, hcache, heval⟩
  · rw [hc] at he
    simp at he
  · rw [hcache] at he
    rw [heval e.1.1 e.1.2.1 e.1.2.2]
    exact hC p hp e he

/-- Updating one user with a cache-clearing function preserves coherence. -/
theorem coherent_usersOnly_clear (st : AuthState) (iden : Iden)
    (f : UserState → UserState) (hf : ∀ w, (f w).cache = [])
    (hC : Coherent st) :
    Coherent { st with users := setA st.users iden f } := by
  apply coherent_of_transfer st _ hC
  intro p' hp'
  obtain ⟨p, hp, heq⟩ := List.mem_map.mp hp'
  by_cases hcond : (p.1 == iden) = true
  · left
    rw [← heq]
    simp [hcond, hf]
  · right
    refine ⟨p, hp, ?_, ?_⟩
    · rw [← heq]
      simp [hcond]
    · intro pp d g
      rw [← heq]
      simp only [hcond, Bool.false_eq_true, if_false]
      exact userAllowed_roles_eq st _ p.2 rfl pp d g

/-- Updating one user with a function that preserves the cache and
every evaluator-relevant field preserves coherence. -/
theorem coherent_usersOnly_pres (st : AuthState) (iden : Iden)
    (f : UserState → UserState)
    (hf : ∀ w, (f w).cache = w.cache ∧ (f w).locked = w.locked ∧
      (f w).admin = w.admin ∧ (f w).authgates = w.authgates ∧
      (f w).rules = w.rules ∧ (f w).roles = w.roles)
    (hC : Coherent st) :
    Coherent { st with users := setA st.users iden f } := by
  apply coherent_of_transfer st _ hC
  intro p' hp'
  obtain ⟨p, hp, heq⟩ := List.mem_map.mp hp'
  right
  by_cases hcond : (p.1 == iden) = true
  · refine ⟨p, hp, ?_, ?_⟩
    · rw [← heq]
      simp [hcond, (hf p.2).1]
    · intro pp d g
      rw [← heq]
      simp only [hcond, if_true]
      obtain ⟨h1, h2, h3, h4, h5, h6⟩ := hf p.2
      exact userAllowed_ext st _ p.2 (f p.2) h2 h3 h4 h5 h6
        (fun j _ => Or.inl rfl) pp d g
  · refine ⟨p, hp, ?_, ?_⟩
    · rw [← heq]
      simp [hcond]
    · intro pp d g
      rw [← heq]
      simp only [hcond, Bool.false_eq_true, if_false]
      exact userAllowed_roles_eq st _ p.2 rfl pp d g

/-- Modifying one role while clearing the caches of every user holding
it preserves coherence. -/
theorem coherent_roleMod (st : AuthState) (iden : Iden) (F : RoleState → RoleState)
    (hC : Coherent st) :
    Coherent { st with roles := setA st.roles iden F, users := clearUsersWithRole st.users iden } := by
  apply coherent_of_transfer st _ hC
  intro p' hp'
  obtain ⟨p, hp, heq⟩ := List.mem_map.mp hp'
  by_cases hcond : iden ∈ p.2.roles
  · left
    rw [← heq]
    simp [hcond, clearCache]
  · right
    refine ⟨p, hp, ?_, ?_⟩
    · rw [← heq]
      simp [hcond]
    · intro pp d g
      rw [← heq]
      simp only [hcond, if_false]
      refine userAllowed_ext st _ p.2 p.2 rfl rfl rfl rfl rfl ?_ pp d g
      intro j hj
      left
      show (lookupA (setA st.roles iden F) j).map (fun r => (r.rules, r.authgates)) =
        roleView st j
      rw [lookupA_setA, if_neg (fun hji : j = iden => hcond (hji ▸ hj))]
      rfl

/-- Renaming one role (or any change that keeps every role's rules and
overlays) preserves coherence, with no cache touched. -/
theorem coherent_rolesOnly_viewpres (st : AuthState) (iden : Iden)
    (F : RoleState → RoleState)
    (hF : ∀ r, (F r).rules = r.rules ∧ (F r).authgates = r.authgates)
    (hC : Coherent st) :
    Coherent { st with roles := setA st.roles iden F } := by
  apply coherent_of_transfer st _ hC
  intro p' hp'
  right
  refine ⟨p', hp', rfl, ?_⟩
  intro pp d g
  refine userAllowed_ext st _ p'.2 p'.2 rfl rfl rfl rfl rfl ?_ pp d g
  intro j hj
  left
  show (lookupA (setA st.roles iden F) j).map (fun r => (r.rules, r.authgates)) =
    roleView st j
  rw [lookupA_setA]
  by_cases hji : j = iden
  · rw [if_pos hji]
    show ((lookupA st.roles j).map F).map (fun r => (r.rules, r.authgates)) =
      (lookupA st.roles j).map (fun r => (r.rules, r.authgates))
    cases hl : lookupA st.roles j with
    | none => rfl
    | some r =>
      simp only [Option.map_some']
      rw [(hF r).1, (hF r).2]
  · rw [if_neg hji]
    rfl

theorem removeA_of_lookup_none {α : Type} {l : List (Iden × α)} {i : Iden}
    (h : lookupA l i = none) : removeA l i = l := by
  rw [removeA]
  apply List.filter_eq_self.mpr
  intro p hp
  have := lookupA_eq_none_iff.mp h p hp
  simp [this]

theorem lookupA_mapSnd {α : Type} (l : List (Iden × α)) (G : α → α) (j : Iden) :
    lookupA (l.map (fun p => (p.1, G p.2))) j = (lookupA l j).map G := by
  induction l with
  | nil => rfl
  | cons p l ih =>
    by_cases hpj : p.1 = j <;> simp [lookupA_cons, hpj, ih]

theorem lookupA_unique {α : Type} {l : List (Iden × α)} {i : Iden} {v : α}
    (hnd : (l.map Prod.fst).Nodup) (h : lookupA l i = some v)
    {p : Iden × α} (hp : p ∈ l) (hpi : p.1 = i) : p.2 = v := by
  induction l with
  | nil => cases hp
  | cons q l ih =>
    rw [lookupA_cons] at h
    rw [List.map_cons, List.nodup_cons] at hnd
    rcases List.mem_cons.mp hp with hpq | hp'
    · subst hpq
      rw [if_pos hpi] at h
      exact Option.some.inj h
    · by_cases hqi : q.1 = i
      · exfalso
        apply hnd.1
        rw [hqi, ← hpi]
        exact List.mem_map_of_mem Prod.fst hp'
      · rw [if_neg hqi] at h
        exact ih hnd.2 h hp'

theorem map_fst_keyPres {α : Type} (l : List (Iden × α)) (G : Iden × α → Iden × α)
    (hG : ∀ p, (G p).1 = p.1) : (l.map G).map Prod.fst = l.map Prod.fst := by
  induction l with
  | nil => rfl
  | cons p l ih => simp [hG, ih]

/-! ### Per-operation coherence preservation -/

theorem coherent_gatesOnly (st : AuthState) (G : List (Iden × String))
    (hC : Coherent st) : Coherent { st with gates := G } := by
  apply coherent_of_transfer st _ hC
  intro p' hp'
  right
  exact ⟨p', hp', rfl, fun pp d g => userAllowed_roles_eq st _ p'.2 rfl pp d g⟩

theorem coherent_setUserInfoOp (st st' : AuthState) (iden : Iden) (v : UVal)
    (gate : Option Iden) (hC : Coherent st)
    (h : setUserInfoOp st iden v gate = (st', none)) : Coherent st' := by
  cases hu : lookupA st.users iden with
  | none => simp [setUserInfoOp, hu] at h
  | some u =>
    cases gate with
    | none =>
      rw [setUserInfoOp_none_eq st iden v u hu] at h
      have hst' := (congrArg Prod.fst h).symm
      subst hst'
      exact coherent_usersOnly_clear st iden _ (fun w => rfl) hC
    | some g =>
      cases hov : lookupA u.authgates g with
      | some gi =>
        have key : setUserInfoOp st iden v (some g) = ({ st with users := setA st.users iden (fun w => clearCache { w with authgates := setA w.authgates g (fun x => applyUValGate x v) }) }, none) := by
          simp [setUserInfoOp, hu, hov]
        rw [key] at h
        have hst' := (congrArg Prod.fst h).symm
        subst hst'
        exact coherent_usersOnly_clear st iden _ (fun w => rfl) hC
      | none =>
        cases hg : lookupA st.gates g with
        | none => simp [setUserInfoOp, hu, hov, hg] at h
        | some t =>
          have key : setUserInfoOp st iden v (some g) = ({ st with users := setA st.users iden (fun w => clearCache { w with authgates := w.authgates ++ [(g, applyUValGate {} v)] }) }, none) := by
            simp [setUserInfoOp, hu, hov, hg]
          rw [key] at h
          have hst' := (congrArg Prod.fst h).symm
          subst hst'
          exact coherent_usersOnly_clear st iden _ (fun w => rfl) hC

theorem coherent_setRoleInfoOp (st st' : AuthState) (iden : Iden) (v : RVal)
    (gate : Option Iden) (hC : Coherent st)
    (h : setRoleInfoOp st iden v gate = (st', none)) : Coherent st' := by
  cases hr : lookupA st.roles iden with
  | none => simp [setRoleInfoOp, hr] at h
  | some r =>
    cases gate with
    | none =>
      have key : setRoleInfoOp st iden v none = ({ st with roles := setA st.roles iden (fun w => applyRVal w v), users := clearUsersWithRole st.users iden }, none) := by
        simp [setRoleInfoOp, hr]
      rw [key] at h
      have hst' := (congrArg Prod.fst h).symm
      subst hst'
      exact coherent_roleMod st iden _ hC
    | some g =>
      cases hov : lookupA r.authgates g with
      | some gi =>
        have key : setRoleInfoOp st iden v (some g) = ({ st with roles := setA st.roles iden (fun w => { w with authgates := setA w.authgates g (fun x => applyRValGate x v) }), users := clearUsersWithRole st.users iden }, none) := by
          simp [setRoleInfoOp, hr, hov]
        rw [key] at h
        have hst' := (congrArg Prod.fst h).symm
        subst hst'
        exact coherent_roleMod st iden _ hC
      | none =>
        cases hg : lookupA st.gates g with
        | none => simp [setRoleInfoOp, hr, hov, hg] at h
        | some t =>
          have key : setRoleInfoOp st iden v (some g) = ({ st with roles := setA st.roles iden (fun w => { w with authgates := w.authgates ++ [(g, applyRValGate {} v)] }), users := clearUsersWithRole st.users iden }, none) := by
            simp [setRoleInfoOp, hr, hov, hg]
          rw [key] at h
          have hst' := (congrArg Prod.fst h).symm
          subst hst'
          exact coherent_roleMod st iden _ hC

theorem coherent_grantOp (st st' : AuthState) (uid : Iden) (rn : String)
    (indx : Option Nat) (hC : Coherent st)
    (h : grantOp st uid rn indx = (st', none)) : Coherent st' := by
  cases hr : findRoleByName st.roles rn with
  | none => simp [grantOp, hr] at h
  | some q =>
    obtain ⟨rid, r⟩ := q
    cases hu : lookupA st.users uid with
    | none => simp [grantOp, hr, hu] at h
    | some u =>
      by_cases hm : rid ∈ u.roles
      · have key : grantOp st uid rn indx = (st, none) := by
          simp [grantOp, hr, hu, hm]
        rw [key] at h
        have hst : st = st' := congrArg Prod.fst h
        rw [← hst]
        exact hC
      · have key : grantOp st uid rn indx =
            setUserInfoOp st uid (.uroles (grantNewRoles u.roles rid indx)) none := by
          simp [grantOp, hr, hu, hm]
        rw [key] at h
        exact coherent_setUserInfoOp st st' uid _ none hC h

theorem coherent_revokeOp (st st' : AuthState) (uid : Iden) (rn : String)
    (hC : Coherent st) (h : revokeOp st uid rn = (st', none)) : Coherent st' := by
  cases hr : findRoleByName st.roles rn with
  | none => simp [revokeOp, hr] at h
  | some q =>
    obtain ⟨rid, r⟩ := q
    by_cases hall : (r.name == "all") = true
    · simp [revokeOp, hr, hall] at h
    · cases hu : lookupA st.users uid with
      | none => simp [revokeOp, hr, hall, hu] at h
      | some u =>
        by_cases hm : rid ∈ u.roles
        · have key : revokeOp st uid rn =
              setUserInfoOp st uid (.uroles (removeFirst u.roles rid)) none := by
            simp [revokeOp, hr, hall, hu, hm]
          rw [key] at h
          exact coherent_setUserInfoOp st st' uid _ none hC h
        · have key : revokeOp st uid rn = (st, none) := by
            simp [revokeOp, hr, hall, hu, hm]
          rw [key] at h
          have hst : st = st' := congrArg Prod.fst h
          rw [← hst]
          exact hC

theorem coherent_addUserRaw (st st' : AuthState) (iden : Iden) (n : String)
    (hC : Coherent st) (h : addUserRaw st iden n = (st', none)) : Coherent st' := by
  cases hd : findUserByName st.users n with
  | some q => simp [addUserRaw, hd] at h
  | none =>
    have key : addUserRaw st iden n =
        ({ st with users := st.users ++ [(iden, { name := n })] }, none) := by
      simp [addUserRaw, hd]
    rw [key] at h
    have hst' := (congrArg Prod.fst h).symm
    subst hst'
    apply coherent_of_transfer st _ hC
    intro p' hp'
    rcases List.mem_append.mp hp' with hold | hnew
    · right
      exact ⟨p', hold, rfl, fun pp d g => userAllowed_roles_eq st _ p'.2 rfl pp d g⟩
    · left
      have hp'' : p' = (iden, { name := n }) := List.mem_singleton.mp hnew
      rw [hp'']

theorem coherent_addUserOp (st st' : AuthState) (iden : Iden) (n : String)
    (hC : Coherent st) (h : addUserOp st iden n = (st', none)) : Coherent st' := by
  unfold addUserOp at h
  cases hraw : addUserRaw st iden n with
  | mk st1 e =>
    cases e with
    | some err =>
      rw [hraw] at h
      simp at h
    | none =>
      rw [hraw] at h
      exact coherent_grantOp st1 st' iden "all" none
        (coherent_addUserRaw st st1 iden n hC hraw) h

theorem coherent_delUserOp (st st' : AuthState) (n : String)
    (hC : Coherent st) (h : delUserOp st n = (st', none)) : Coherent st' := by
  by_cases hroot : (n == "root") = true
  · simp [delUserOp, hroot] at h
  · cases hf : findUserByName st.users n with
    | none => simp [delUserOp, hroot, hf] at h
    | some q =>
      have key : delUserOp st n = ({ st with users := removeA st.users q.1 }, none) := by
        simp [delUserOp, hroot, hf]
      rw [key] at h
      have hst' := (congrArg Prod.fst h).symm
      subst hst'
      apply coherent_of_transfer st _ hC
      intro p' hp'
      right
      exact ⟨p', List.mem_of_mem_filter hp', rfl,
        fun pp d g => userAllowed_roles_eq st _ p'.2 rfl pp d g⟩

theorem coherent_addRoleOp (st st' : AuthState) (iden : Iden) (n : String)
    (hC : Coherent st) (h : addRoleOp st iden n = (st', none)) : Coherent st' := by
  cases hd : findRoleByName st.roles n with
  | some q => simp [addRoleOp, hd] at h
  | none =>
    have key : addRoleOp st iden n =
        ({ st with roles := st.roles ++ [(iden, { name := n })] }, none) := by
      simp [addRoleOp, hd]
    rw [key] at h
    have hst' := (congrArg Prod.fst h).symm
    subst hst'
    apply coherent_of_transfer st _ hC
    intro p' hp'
    right
    refine ⟨p', hp', rfl, ?_⟩
    intro pp d g
    refine userAllowed_ext st _ p'.2 p'.2 rfl rfl rfl rfl rfl ?_ pp d g
    intro j hj
    cases hl : lookupA st.roles j with
    | some x =>
      left
      show (lookupA (st.roles ++ [(iden, { name := n })]) j).map
          (fun r => (r.rules, r.authgates)) =
        (lookupA st.roles j).map (fun r => (r.rules, r.authgates))
      rw [lookupA_append_single, hl]
    | none =>
      by_cases hji : j = iden
      · right
        constructor
        · show (lookupA st.roles j).map (fun r => (r.rules, r.authgates)) = none
          rw [hl]
          rfl
        · show (lookupA (st.roles ++ [(iden, { name := n })]) j).map
              (fun r => (r.rules, r.authgates)) = some ([], [])
          rw [lookupA_append_single, hl]
          simp [hji]
      · left
        show (lookupA (st.roles ++ [(iden, { name := n })]) j).map
            (fun r => (r.rules, r.authgates)) =
          (lookupA st.roles j).map (fun r => (r.rules, r.authgates))
        rw [lookupA_append_single, hl]
        simp [hji]

theorem coherent_delRoleOp (st st' : AuthState) (n : String)
    (hC : Coherent st) (h : delRoleOp st n = (st', none)) : Coherent st' := by
  by_cases hall : (n == "all") = true
  · simp [delRoleOp, hall] at h
  · cases hf : findRoleByName st.roles n with
    | none => simp [delRoleOp, hall, hf] at h
    | some q =>
      obtain ⟨rid, r⟩ := q
      have key : delRoleOp st n = ({ st with users := st.users.map (fun p => if rid ∈ p.2.roles then (p.1, clearCache { p.2 with roles := removeFirst p.2.roles rid }) else p), roles := removeA st.roles rid }, none) := by
        simp [delRoleOp, hall, hf]
      rw [key] at h
      have hst' := (congrArg Prod.fst h).symm
      subst hst'
      apply coherent_of_transfer st _ hC
      intro p' hp'
      obtain ⟨p, hp, heq⟩ := List.mem_map.mp hp'
      by_cases hcond : rid ∈ p.2.roles
      · left
        rw [← heq]
        simp [hcond, clearCache]
      · right
        refine ⟨p, hp, ?_, ?_⟩
        · rw [← heq]
          simp [hcond]
        · intro pp d g
          rw [← heq]
          simp only [hcond, if_false]
          refine userAllowed_ext st _ p.2 p.2 rfl rfl rfl rfl rfl ?_ pp d g
          intro j hj
          left
          show (lookupA (removeA st.roles rid) j).map (fun x => (x.rules, x.authgates)) =
            roleView st j
          rw [lookupA_removeA, if_neg (fun hji : j = rid => hcond (hji ▸ hj))]
          rfl

theorem coherent_addAuthGateOp (st st' : AuthState) (iden ty : String)
    (hC : Coherent st) (h : addAuthGateOp st iden ty = (st', none)) : Coherent st' := by
  cases hg : lookupA st.gates iden with
  | some t =>
    by_cases hty : (t == ty) = true
    · have key : addAuthGateOp st iden ty = (st, none) := by
        simp [addAuthGateOp, hg, hty]
      rw [key] at h
      have hst : st = st' := congrArg Prod.fst h
      rw [← hst]
      exact hC
    · simp [addAuthGateOp, hg, hty] at h
  | none =>
    have key : addAuthGateOp st iden ty =
        ({ st with gates := st.gates ++ [(iden, ty)] }, none) := by
      simp [addAuthGateOp, hg]
    rw [key] at h
    have hst' := (congrArg Prod.fst h).symm
    subst hst'
    exact coherent_gatesOnly st _ hC

theorem coherent_setUserNameOp (st st' : AuthState) (iden : Iden) (n : String)
    (hC : Coherent st) (h : setUserNameOp st iden n = (st', none)) : Coherent st' := by
  cases hd : findUserByName st.users n with
  | some q => simp [setUserNameOp, hd] at h
  | none =>
    cases ht : lookupA st.users iden with
    | none => simp [setUserNameOp, hd, ht] at h
    | some u =>
      have key : setUserNameOp st iden n =
          ({ st with users := setA st.users iden (fun w => { w with name := n }) },
           none) := by
        simp [setUserNameOp, hd, ht]
      rw [key] at h
      have hst' := (congrArg Prod.fst h).symm
      subst hst'
      exact coherent_usersOnly_pres st iden _
        (fun w => ⟨rfl, rfl, rfl, rfl, rfl, rfl⟩) hC

theorem coherent_setRoleNameOp (st st' : AuthState) (iden : Iden) (n : String)
    (hC : Coherent st) (h : setRoleNameOp st iden n = (st', none)) : Coherent st' := by
  cases hd : findRoleByName st.roles n with
  | some q => simp [setRoleNameOp, hd] at h
  | none =>
    cases ht : lookupA st.roles iden with
    | none => simp [setRoleNameOp, hd, ht] at h
    | some r =>
      have key : setRoleNameOp st iden n =
          ({ st with roles := setA st.roles iden (fun w => { w with name := n }) },
           none) := by
        simp [setRoleNameOp, hd, ht]
      rw [key] at h
      have hst' := (congrArg Prod.fst h).symm
      subst hst'
      exact coherent_rolesOnly_viewpres st iden _ (fun r => ⟨rfl, rfl⟩) hC

theorem coherent_setArchivedOp (st st' : AuthState) (uid : Iden) (b : Bool)
    (hC : Coherent st) (h : setArchivedOp st uid b = (st', none)) : Coherent st' := by
  unfold setArchivedOp at h
  cases h1 : setUserInfoOp st uid (.archived b) none with
  | mk st1 e =>
    cases e with
    | some err =>
      rw [h1] at h
      simp at h
    | none =>
      rw [h1] at h
      have hC1 := coherent_setUserInfoOp st st1 uid _ none hC h1
      cases b with
      | true => exact coherent_setUserInfoOp st1 st' uid _ none hC1 h
      | false =>
        have h2 : (st1, (none : Option AuthErr)) = (st', none) := h
        have hst : st1 = st' := congrArg Prod.fst h2
        rw [← hst]
        exact hC1

theorem coherent_setPasswdOp (st st' : AuthState) (uid : Iden) (arg : PyStrArg)
    (salt : String) (hC : Coherent st)
    (h : setPasswdOp st uid arg salt = (st', none)) : Coherent st' := by
  cases arg with
  | pyNonStr => simp [setPasswdOp] at h
  | pyStr p =>
    by_cases hp : p = ""
    · simp [setPasswdOp, hp] at h
    · cases hu : lookupA st.users uid with
      | none => simp [setPasswdOp, hp, hu] at h
      | some u =>
        have key : setPasswdOp st uid (.pyStr p) salt = ({ st with users := setA st.users uid (fun w => { w with passwd := some (salt, s_common_guid (salt, p)) }) }, none) := by
          simp [setPasswdOp, hp, hu]
        rw [key] at h
        have hst' := (congrArg Prod.fst h).symm
        subst hst'
        exact coherent_usersOnly_pres st uid _
          (fun w => ⟨rfl, rfl, rfl, rfl, rfl, rfl⟩) hC

theorem lookupA_removeGates (roles : List (Iden × RoleState)) (g : Iden) (j : Iden) :
    lookupA (roles.map (fun q => (q.1, { q.2 with authgates := removeA q.2.authgates g }))) j =
      (lookupA roles j).map (fun r => { r with authgates := removeA r.authgates g }) := by
  induction roles with
  | nil => rfl
  | cons p l ih =>
    by_cases hpj : p.1 = j <;> simp [lookupA_cons, hpj, ih]

theorem coherent_delAuthGateOp (st st' : AuthState) (g : String)
    (hC : Coherent st) (h : delAuthGateOp st g = (st', none)) : Coherent st' := by
  cases hg : lookupA st.gates g with
  | none => simp [delAuthGateOp, hg] at h
  | some t =>
    have key : delAuthGateOp st g = ({ st with users := st.users.map (fun p => if (lookupA p.2.authgates g).isSome || p.2.roles.any (roleHasGate st g) then (p.1, clearCache { p.2 with authgates := removeA p.2.authgates g }) else (p.1, { p.2 with authgates := removeA p.2.authgates g })), roles := st.roles.map (fun p => (p.1, { p.2 with authgates := removeA p.2.authgates g })), gates := removeA st.gates g }, none) := by
      simp [delAuthGateOp, hg]
    rw [key] at h
    have hst' : st' = { st with users := st.users.map (fun p => if (lookupA p.2.authgates g).isSome || p.2.roles.any (roleHasGate st g) then (p.1, clearCache { p.2 with authgates := removeA p.2.authgates g }) else (p.1, { p.2 with authgates := removeA p.2.authgates g })), roles := st.roles.map (fun p => (p.1, { p.2 with authgates := removeA p.2.authgates g })), gates := removeA st.gates g } :=
      (congrArg Prod.fst h).symm
    subst hst'
    apply coherent_of_transfer st _ hC
    intro p' hp'
    obtain ⟨p, hp, heq⟩ := List.mem_map.mp hp'
    by_cases hcond : ((lookupA p.2.authgates g).isSome || p.2.roles.any (roleHasGate st g)) = true
    · left
      rw [← heq]
      simp [hcond, clearCache]
    · have hcond' : ((lookupA p.2.authgates g).isSome || p.2.roles.any (roleHasGate st g)) = false :=
        Bool.eq_false_iff.mpr hcond
      obtain ⟨hself, hany⟩ := Bool.or_eq_false_iff.mp hcond'
      have hov : lookupA p.2.authgates g = none := by
        cases ho : lookupA p.2.authgates g
        · rfl
        · rw [ho] at hself
          simp at hself
      have hremove : removeA p.2.authgates g = p.2.authgates := removeA_of_lookup_none hov
      right
      refine ⟨p, hp, ?_, ?_⟩
      · rw [← heq]
        simp [hcond]
      · intro pp d g2
        rw [← heq]
        rw [if_neg hcond]
        refine userAllowed_ext st _ p.2 { p.2 with authgates := removeA p.2.authgates g }
          rfl rfl hremove rfl rfl ?_ pp d g2
        intro j hj
        left
        have hrj : roleHasGate st g j = false := by
          have := List.any_eq_false.mp hany j hj
          exact Bool.eq_false_iff.mpr this
        show (lookupA (st.roles.map (fun q => (q.1, ({ q.2 with authgates := removeA q.2.authgates g } : RoleState)))) j).map
            (fun r => (r.rules, r.authgates)) =
          (lookupA st.roles j).map (fun r => (r.rules, r.authgates))
        rw [lookupA_removeGates]
        cases hl : lookupA st.roles j with
        | none => rfl
        | some r =>
          have hiso : (lookupA r.authgates g).isSome = false := by
            rw [roleHasGate, hl] at hrj
            exact hrj
          have hrg : lookupA r.authgates g = none := by
            cases ho : lookupA r.authgates g
            · rfl
            · rw [ho] at hiso
              simp at hiso
          simp only [Option.map_some']
          rw [removeA_of_lookup_none hrg]

theorem coherent_queryOp (st st' : AuthState) (uid : Iden) (k : PKey)
    (hC : Coherent st) (hOK : UsersOK st)
    (h : queryOp st uid k = (st', none)) : Coherent st' := by
  cases hu : lookupA st.users uid with
  | none => simp [queryOp, hu] at h
  | some u =>
    by_cases hhit : (u.cache.find? (fun e => decide (e.1 = k))).isSome = true
    · have key : queryOp st uid k = (st, none) := by
        simp [queryOp, hu, hhit]
      rw [key] at h
      have hst : st = st' := congrArg Prod.fst h
      rw [← hst]
      exact hC
    · have key : queryOp st uid k = ({ st with users := setA st.users uid (fun w => { w with cache := ((k, userAllowed st u k.1 k.2.1 k.2.2) :: w.cache).take permCacheSize }) }, none) := by
        simp [queryOp, hu, hhit]
      rw [key] at h
      have hst' : st' = { st with users := setA st.users uid (fun w => { w with cache := ((k, userAllowed st u k.1 k.2.1 k.2.2) :: w.cache).take permCacheSize }) } :=
        (congrArg Prod.fst h).symm
      subst hst'
      intro p' hp' e he
      obtain ⟨p, hp, heq⟩ := List.mem_map.mp hp'
      by_cases hcond : (p.1 == uid) = true
      · have hpu : p.2 = u := lookupA_unique hOK hu hp (beq_iff_eq.mp hcond)
        rw [← heq] at he ⊢
        simp only [hcond, if_true] at he ⊢
        have heval : ∀ (pp : Perm) (d : Option Bool) (gg : Option Iden),
            userAllowed { st with users := setA st.users uid (fun w => { w with cache := ((k, userAllowed st u k.1 k.2.1 k.2.2) :: w.cache).take permCacheSize }) } { p.2 with cache := ((k, userAllowed st u k.1 k.2.1 k.2.2) :: p.2.cache).take permCacheSize } pp d gg =
            userAllowed st p.2 pp d gg := by
          intro pp d gg
          exact userAllowed_ext st _ p.2 _ rfl rfl rfl rfl rfl
            (fun j _ => Or.inl rfl) pp d gg
        have he' : e ∈ ((k, userAllowed st u k.1 k.2.1 k.2.2) :: p.2.cache) :=
          List.mem_of_mem_take he
        rw [heval e.1.1 e.1.2.1 e.1.2.2]
        rcases List.mem_cons.mp he' with hek | hold
        · rw [hek]
          rw [hpu]
        · exact hC p hp e hold
      · rw [← heq] at he ⊢
        simp only [hcond, Bool.false_eq_true, if_false] at he ⊢
        rw [hC p hp e he]
        exact (userAllowed_roles_eq st { st with users := setA st.users uid (fun w => { w with cache := ((k, userAllowed st u k.1 k.2.1 k.2.2) :: w.cache).take permCacheSize }) } p.2 rfl e.1.1 e.1.2.1 e.1.2.2).symm

/-! ### Preservation of user-key uniqueness -/

theorem map_fst_setA {α : Type} (l : List (Iden × α)) (i : Iden) (f : α → α) :
    (setA l i f).map Prod.fst = l.map Prod.fst :=
  map_fst_keyPres l _ (fun p => by by_cases hc : (p.1 == i) = true <;> simp [hc])

theorem usersOK_setA (st : AuthState) (i : Iden) (f : UserState → UserState)
    (hOK : UsersOK st) : UsersOK { st with users := setA st.users i f } := by
  show ((setA st.users i f).map Prod.fst).Nodup
  rw [map_fst_setA]
  exact hOK

theorem nodup_map_fst_keyMap {α : Type} (l : List (Iden × α))
    (G : Iden × α → Iden × α) (hG : ∀ p, (G p).1 = p.1)
    (h : (l.map Prod.fst).Nodup) : ((l.map G).map Prod.fst).Nodup := by
  rw [map_fst_keyPres l G hG]
  exact h

theorem usersOK_setUserInfoOp (st st' : AuthState) (iden : Iden) (v : UVal)
    (gate : Option Iden) (hOK : UsersOK st)
    (h : setUserInfoOp st iden v gate = (st', none)) : UsersOK st' := by
  cases hu : lookupA st.users iden with
  | none => simp [setUserInfoOp, hu] at h
  | some u =>
    cases gate with
    | none =>
      rw [setUserInfoOp_none_eq st iden v u hu] at h
      have hst' : st' = { st with users := setA st.users iden (fun w => clearCache (applyUVal w v)) } :=
        (congrArg Prod.fst h).symm
      subst hst'
      exact usersOK_setA st iden _ hOK
    | some g =>
      cases hov : lookupA u.authgates g with
      | some gi =>
        have key : setUserInfoOp st iden v (some g) = ({ st with users := setA st.users iden (fun w => clearCache { w with authgates := setA w.authgates g (fun x => applyUValGate x v) }) }, none) := by
          simp [setUserInfoOp, hu, hov]
        rw [key] at h
        have hst' : st' = { st with users := setA st.users iden (fun w => clearCache { w with authgates := setA w.authgates g (fun x => applyUValGate x v) }) } :=
          (congrArg Prod.fst h).symm
        subst hst'
        exact usersOK_setA st iden _ hOK
      | none =>
        cases hg : lookupA st.gates g with
        | none => simp [setUserInfoOp, hu, hov, hg] at h
        | some t =>
          have key : setUserInfoOp st iden v (some g) = ({ st with users := setA st.users iden (fun w => clearCache { w with authgates := w.authgates ++ [(g, applyUValGate {} v)] }) }, none) := by
            simp [setUserInfoOp, hu, hov, hg]
          rw [key] at h
          have hst' : st' = { st with users := setA st.users iden (fun w => clearCache { w with authgates := w.authgates ++ [(g, applyUValGate {} v)] }) } :=
            (congrArg Prod.fst h).symm
          subst hst'
          exact usersOK_setA st iden _ hOK

theorem usersOK_setRoleInfoOp (st st' : AuthState) (iden : Iden) (v : RVal)
    (gate : Option Iden) (hOK : UsersOK st)
    (h : setRoleInfoOp st iden v gate = (st', none)) : UsersOK st' := by
  have husers : st'.users = clearUsersWithRole st.users iden := by
    cases hr : lookupA st.roles iden with
    | none => simp [setRoleInfoOp, hr] at h
    | some r =>
      cases gate with
      | none =>
        have key : setRoleInfoOp st iden v none = ({ st with roles := setA st.roles iden (fun w => applyRVal w v), users := clearUsersWithRole st.users iden }, none) := by
          simp [setRoleInfoOp, hr]
        rw [key] at h
        have hst' : st' = { st with roles := setA st.roles iden (fun w => applyRVal w v), users := clearUsersWithRole st.users iden } := (congrArg Prod.fst h).symm
        rw [hst']
      | some g =>
        cases hov : lookupA r.authgates g with
        | some gi =>
          have key : setRoleInfoOp st iden v (some g) = ({ st with roles := setA st.roles iden (fun w => { w with authgates := setA w.authgates g (fun x => applyRValGate x v) }), users := clearUsersWithRole st.users iden }, none) := by
            simp [setRoleInfoOp, hr, hov]
          rw [key] at h
          have hst' : st' = { st with roles := setA st.roles iden (fun w => { w with authgates := setA w.authgates g (fun x => applyRValGate x v) }), users := clearUsersWithRole st.users iden } := (congrArg Prod.fst h).symm
          rw [hst']
        | none =>
          cases hg : lookupA st.gates g with
          | none => simp [setRoleInfoOp, hr, hov, hg] at h
          | some t =>
            have key : setRoleInfoOp st iden v (some g) = ({ st with roles := setA st.roles iden (fun w => { w with authgates := w.authgates ++ [(g, applyRValGate {} v)] }), users := clearUsersWithRole st.users iden }, none) := by
              simp [setRoleInfoOp, hr, hov, hg]
            rw [key] at h
            have hst' : st' = { st with roles := setA st.roles iden (fun w => { w with authgates := w.authgates ++ [(g, applyRValGate {} v)] }), users := clearUsersWithRole st.users iden } := (congrArg Prod.fst h).symm
            rw [hst']
  rw [UsersOK, husers]
  exact nodup_map_fst_keyMap st.users _
    (fun p => by by_cases hc : iden ∈ p.2.roles <;> simp [hc]) hOK

theorem usersOK_grantOp (st st' : AuthState) (uid : Iden) (rn : String)
    (indx : Option Nat) (hOK : UsersOK st)
    (h : grantOp st uid rn indx = (st', none)) : UsersOK st' := by
  cases hr : findRoleByName st.roles rn with
  | none => simp [grantOp, hr] at h
  | some q =>
    obtain ⟨rid, r⟩ := q
    cases hu : lookupA st.users uid with
    | none => simp [grantOp, hr, hu] at h
    | some u =>
      by_cases hm : rid ∈ u.roles
      · have key : grantOp st uid rn indx = (st, none) := by
          simp [grantOp, hr, hu, hm]
        rw [key] at h
        have hst : st = st' := congrArg Prod.fst h
        rw [← hst]
        exact hOK
      · have key : grantOp st uid rn indx =
            setUserInfoOp st uid (.uroles (grantNewRoles u.roles rid indx)) none := by
          simp [grantOp, hr, hu, hm]
        rw [key] at h
        exact usersOK_setUserInfoOp st st' uid _ none hOK h

theorem usersOK_revokeOp (st st' : AuthState) (uid : Iden) (rn : String)
    (hOK : UsersOK st) (h : revokeOp st uid rn = (st', none)) : UsersOK st' := by
  cases hr : findRoleByName st.roles rn with
  | none => simp [revokeOp, hr] at h
  | some q =>
    obtain ⟨rid, r⟩ := q
    by_cases hall : (r.name == "all") = true
    · simp [revokeOp, hr, hall] at h
    · cases hu : lookupA st.users uid with
      | none => simp [revokeOp, hr, hall, hu] at h
      | some u =>
        by_cases hm : rid ∈ u.roles
        · have key : revokeOp st uid rn =
              setUserInfoOp st uid (.uroles (removeFirst u.roles rid)) none := by
            simp [revokeOp, hr, hall, hu, hm]
          rw [key] at h
          exact usersOK_setUserInfoOp st st' uid _ none hOK h
        · have key : revokeOp st uid rn = (st, none) := by
            simp [revokeOp, hr, hall, hu, hm]
          rw [key] at h
          have hst : st = st' := congrArg Prod.fst h
          rw [← hst]
          exact hOK

theorem usersOK_runOp (st st' : AuthState) (op : AuthOp) (hOK : UsersOK st)
    (hfresh : opFresh op st) (h : runOp op st = (st', none)) : UsersOK st' := by
  cases op with
  | addUser iden n =>
    have h' : addUserOp st iden n = (st', none) := h
    unfold addUserOp at h'
    cases hraw : addUserRaw st iden n with
    | mk st1 e =>
      cases e with
      | some err =>
        rw [hraw] at h'
        simp at h'
      | none =>
        rw [hraw] at h'
        have hOK1 : UsersOK st1 := by
          cases hd : findUserByName st.users n with
          | some q => simp [addUserRaw, hd] at hraw
          | none =>
            have key : addUserRaw st iden n =
                ({ st with users := st.users ++ [(iden, { name := n })] }, none) := by
              simp [addUserRaw, hd]
            rw [key] at hraw
            have hst1 : st1 = { st with users := st.users ++ [(iden, { name := n })] } :=
              (congrArg Prod.fst hraw).symm
            subst hst1
            show ((st.users ++ [(iden, ({ name := n } : UserState))]).map Prod.fst).Nodup
            rw [List.map_append]
            have hnot : iden ∉ st.users.map Prod.fst := by
              intro hmem
              obtain ⟨p, hp, hpe⟩ := List.mem_map.mp hmem
              exact lookupA_eq_none_iff.mp hfresh.1 p hp hpe
            have hOK' : (st.users.map Prod.fst).Nodup := hOK
            simp [List.nodup_append, hOK', hnot]
        exact usersOK_grantOp st1 st' iden "all" none hOK1 h'
  | delUser n =>
    have h' : delUserOp st n = (st', none) := h
    by_cases hroot : (n == "root") = true
    · simp [delUserOp, hroot] at h'
    · cases hf : findUserByName st.users n with
      | none => simp [delUserOp, hroot, hf] at h'
      | some q =>
        have key : delUserOp st n = ({ st with users := removeA st.users q.1 }, none) := by
          simp [delUserOp, hroot, hf]
        rw [key] at h'
        have hst' : st' = { st with users := removeA st.users q.1 } :=
          (congrArg Prod.fst h').symm
        subst hst'
        show (((st.users.filter (fun p => !(p.1 == q.1)))).map Prod.fst).Nodup
        exact ((List.filter_sublist st.users).map Prod.fst).nodup hOK
  | addRole iden n =>
    have h' : addRoleOp st iden n = (st', none) := h
    cases hd : findRoleByName st.roles n with
    | some q => simp [addRoleOp, hd] at h'
    | none =>
      have key : addRoleOp st iden n =
          ({ st with roles := st.roles ++ [(iden, { name := n })] }, none) := by
        simp [addRoleOp, hd]
      rw [key] at h'
      have hst' : st' = { st with roles := st.roles ++ [(iden, { name := n })] } :=
        (congrArg Prod.fst h').symm
      subst hst'
      exact hOK
  | delRole n =>
    have h' : delRoleOp st n = (st', none) := h
    by_cases hall : (n == "all") = true
    · simp [delRoleOp, hall] at h'
    · cases hf : findRoleByName st.roles n with
      | none => simp [delRoleOp, hall, hf] at h'
      | some q =>
        obtain ⟨rid, r⟩ := q
        have key : delRoleOp st n = ({ st with users := st.users.map (fun p => if rid ∈ p.2.roles then (p.1, clearCache { p.2 with roles := removeFirst p.2.roles rid }) else p), roles := removeA st.roles rid }, none) := by
          simp [delRoleOp, hall, hf]
        rw [key] at h'
        have hst' : st' = { st with users := st.users.map (fun p => if rid ∈ p.2.roles then (p.1, clearCache { p.2 with roles := removeFirst p.2.roles rid }) else p), roles := removeA st.roles rid } :=
          (congrArg Prod.fst h').symm
        subst hst'
        exact nodup_map_fst_keyMap st.users _
          (fun p => by by_cases hc : rid ∈ p.2.roles <;> simp [hc]) hOK
  | setUserName iden n =>
    have h' : setUserNameOp st iden n = (st', none) := h
    cases hd : findUserByName st.users n with
    | some q => simp [setUserNameOp, hd] at h'
    | none =>
      cases ht : lookupA st.users iden with
      | none => simp [setUserNameOp, hd, ht] at h'
      | some u =>
        have key : setUserNameOp st iden n =
            ({ st with users := setA st.users iden (fun w => { w with name := n }) }, none) := by
          simp [setUserNameOp, hd, ht]
        rw [key] at h'
        have hst' : st' = { st with users := setA st.users iden (fun w => { w with name := n }) } :=
          (congrArg Prod.fst h').symm
        subst hst'
        exact usersOK_setA st iden _ hOK
  | setRoleName iden n =>
    have h' : setRoleNameOp st iden n = (st', none) := h
    cases hd : findRoleByName st.roles n with
    | some q => simp [setRoleNameOp, hd] at h'
    | none =>
      cases ht : lookupA st.roles iden with
      | none => simp [setRoleNameOp, hd, ht] at h'
      | some r =>
        have key : setRoleNameOp st iden n =
            ({ st with roles := setA st.roles iden (fun w => { w with name := n }) }, none) := by
          simp [setRoleNameOp, hd, ht]
        rw [key] at h'
        have hst' : st' = { st with roles := setA st.roles iden (fun w => { w with name := n }) } :=
          (congrArg Prod.fst h').symm
        subst hst'
        exact hOK
  | setUserInfo iden v gate => exact usersOK_setUserInfoOp st st' iden v gate hOK h
  | setRoleInfo iden v gate => exact usersOK_setRoleInfoOp st st' iden v gate hOK h
  | grant uid rn indx => exact usersOK_grantOp st st' uid rn indx hOK h
  | revoke uid rn => exact usersOK_revokeOp st st' uid rn hOK h
  | setLocked uid b => exact usersOK_setUserInfoOp st st' uid (.locked b) none hOK h
  | setArchived uid b =>
    have h' : setArchivedOp st uid b = (st', none) := h
    unfold setArchivedOp at h'
    cases h1 : setUserInfoOp st uid (.archived b) none with
    | mk st1 e =>
      cases e with
      | some err =>
        rw [h1] at h'
        simp at h'
      | none =>
        rw [h1] at h'
        have hOK1 := usersOK_setUserInfoOp st st1 uid _ none hOK h1
        cases b with
        | true => exact usersOK_setUserInfoOp st1 st' uid _ none hOK1 h'
        | false =>
          have h2 : (st1, (none : Option AuthErr)) = (st', none) := h'
          have hst : st1 = st' := congrArg Prod.fst h2
          rw [← hst]
          exact hOK1
  | setPasswd uid arg salt =>
    have h' : setPasswdOp st uid arg salt = (st', none) := h
    cases arg with
    | pyNonStr => simp [setPasswdOp] at h'
    | pyStr p =>
      by_cases hp : p = ""
      · simp [setPasswdOp, hp] at h'
      · cases hu : lookupA st.users uid with
        | none => simp [setPasswdOp, hp, hu] at h'
        | some u =>
          have key : setPasswdOp st uid (.pyStr p) salt = ({ st with users := setA st.users uid (fun w => { w with passwd := some (salt, s_common_guid (salt, p)) }) }, none) := by
            simp [setPasswdOp, hp, hu]
          rw [key] at h'
          have hst' : st' = { st with users := setA st.users uid (fun w => { w with passwd := some (salt, s_common_guid (salt, p)) }) } :=
            (congrArg Prod.fst h').symm
          subst hst'
          exact usersOK_setA st uid _ hOK
  | addAuthGate iden ty =>
    have h' : addAuthGateOp st iden ty = (st', none) := h
    cases hg : lookupA st.gates iden with
    | some t =>
      by_cases hty : (t == ty) = true
      · have key : addAuthGateOp st iden ty = (st, none) := by
          simp [addAuthGateOp, hg, hty]
        rw [key] at h'
        have hst : st = st' := congrArg Prod.fst h'
        rw [← hst]
        exact hOK
      · simp [addAuthGateOp, hg, hty] at h'
    | none =>
      have key : addAuthGateOp st iden ty =
          ({ st with gates := st.gates ++ [(iden, ty)] }, none) := by
        simp [addAuthGateOp, hg]
      rw [key] at h'
      have hst' : st' = { st with gates := st.gates ++ [(iden, ty)] } :=
        (congrArg Prod.fst h').symm
      subst hst'
      exact hOK
  | delAuthGate g =>
    have h' : delAuthGateOp st g = (st', none) := h
    cases hg : lookupA st.gates g with
    | none => simp [delAuthGateOp, hg] at h'
    | some t =>
      have key : delAuthGateOp st g = ({ st with users := st.users.map (fun p => if (lookupA p.2.authgates g).isSome || p.2.roles.any (roleHasGate st g) then (p.1, clearCache { p.2 with authgates := removeA p.2.authgates g }) else (p.1, { p.2 with authgates := removeA p.2.authgates g })), roles := st.roles.map (fun p => (p.1, { p.2 with authgates := removeA p.2.authgates g })), gates := removeA st.gates g }, none) := by
        simp [delAuthGateOp, hg]
      rw [key] at h'
      have hst' : st' = { st with users := st.users.map (fun p => if (lookupA p.2.authgates g).isSome || p.2.roles.any (roleHasGate st g) then (p.1, clearCache { p.2 with authgates := removeA p.2.authgates g }) else (p.1, { p.2 with authgates := removeA p.2.authgates g })), roles := st.roles.map (fun p => (p.1, { p.2 with authgates := removeA p.2.authgates g })), gates := removeA st.gates g } :=
        (congrArg Prod.fst h').symm
      subst hst'
      exact nodup_map_fst_keyMap st.users _
        (fun p => by
          by_cases hc : ((lookupA p.2.authgates g).isSome || p.2.roles.any (roleHasGate st g)) = true <;>
            simp [hc]) hOK
  | query uid k =>
    have h' : queryOp st uid k = (st', none) := h
    cases hu : lookupA st.users uid with
    | none => simp [queryOp, hu] at h'
    | some u =>
      by_cases hhit : (u.cache.find? (fun e => decide (e.1 = k))).isSome = true
      · have key : queryOp st uid k = (st, none) := by
          simp [queryOp, hu, hhit]
        rw [key] at h'
        have hst : st = st' := congrArg Prod.fst h'
        rw [← hst]
        exact hOK
      · have key : queryOp st uid k = ({ st with users := setA st.users uid (fun w => { w with cache := ((k, userAllowed st u k.1 k.2.1 k.2.2) :: w.cache).take permCacheSize }) }, none) := by
          simp [queryOp, hu, hhit]
        rw [key] at h'
        have hst' : st' = { st with users := setA st.users uid (fun w => { w with cache := ((k, userAllowed st u k.1 k.2.1 k.2.2) :: w.cache).take permCacheSize }) } :=
          (congrArg Prod.fst h').symm
        subst hst'
        exact usersOK_setA st uid _ hOK

theorem coherent_runOp (st st' : AuthState) (op : AuthOp)
    (hC : Coherent st) (hOK : UsersOK st)
    (h : runOp op st = (st', none)) : Coherent st' := by
  cases op with
  | addUser iden n => exact coherent_addUserOp st st' iden n hC h
  | delUser n => exact coherent_delUserOp st st' n hC h
  | addRole iden n => exact coherent_addRoleOp st st' iden n hC h
  | delRole n => exact coherent_delRoleOp st st' n hC h
  | setUserName iden n => exact coherent_setUserNameOp st st' iden n hC h
  | setRoleName iden n => exact coherent_setRoleNameOp st st' iden n hC h
  | setUserInfo iden v gate => exact coherent_setUserInfoOp st st' iden v gate hC h
  | setRoleInfo iden v gate => exact coherent_setRoleInfoOp st st' iden v gate hC h
  | grant uid rn indx => exact coherent_grantOp st st' uid rn indx hC h
  | revoke uid rn => exact coherent_revokeOp st st' uid rn hC h
  | setLocked uid b => exact coherent_setUserInfoOp st st' uid (.locked b) none hC h
  | setArchived uid b => exact coherent_setArchivedOp st st' uid b hC h
  | setPasswd uid arg salt => exact coherent_setPasswdOp st st' uid arg salt hC h
  | addAuthGate iden ty => exact coherent_addAuthGateOp st st' iden ty hC h
  | delAuthGate g => exact coherent_delAuthGateOp st st' g hC h
  | query uid k => exact coherent_queryOp st st' uid k hC hOK h

theorem reach_inv (st0 st : AuthState) (h : Reach st0 st)
    (hOK0 : UsersOK st0) (hC0 : Coherent st0) : UsersOK st ∧ Coherent st := by
  induction h with
  | refl => exact ⟨hOK0, hC0⟩
  | step stm st' op hr hfresh hrun ih =>
    obtain ⟨hOK, hC⟩ := ih
    exact ⟨usersOK_runOp stm st' op hOK hfresh hrun,
      coherent_runOp stm st' op hC hOK hrun⟩

/-! ### Claim C3 -/

/-- Claim C3: starting from a freshly bootstrapped Auth, in every
reachable state, after any further completed mutation operation, the
answer `allowed` serves for any user and any query tuple — whether
memoized or freshly evaluated — equals the evaluator run from scratch
against the post-mutation state. -/
theorem cache_coherence (a r : Iden) (st st' : AuthState) (op : AuthOp)
    (hreach : Reach (initAuth a r) st) (hfresh : opFresh op st)
    (hrun : runOp op st = (st', none))
    (uiden : Iden) (u : UserState) (hu : lookupA st'.users uiden = some u) (k : PKey) :
    allowedCached st' u k = userAllowed st' u k.1 k.2.1 k.2.2 := by
  have hOK0 : UsersOK (initAuth a r) := by
    simp [UsersOK, initAuth]
  have hC0 : Coherent (initAuth a r) := by
    intro p hp e he
    have hp' : p = (r, { name := "root", admin := true, roles := [a] }) :=
      List.mem_singleton.mp hp
    rw [hp'] at he
    simp at he
  have hinv : UsersOK st' ∧ Coherent st' :=
    reach_inv (initAuth a r) st'
      (Reach.step (initAuth a r) st st' op hreach hfresh hrun) hOK0 hC0
  unfold allowedCached
  cases hfind : (u.cache.find? (fun e => decide (e.1 = k))).map (fun e => e.2) with
  | none => rfl
  | some v =>
    obtain ⟨e, hfe, hev⟩ := Option.map_eq_some'.mp hfind
    have hmem := List.mem_of_find?_eq_some hfe
    have hpred := List.find?_some hfe
    have hek : e.1 = k := of_decide_eq_true hpred
    have hcoh := hinv.2 (uiden, u) (lookupA_mem hu) e hmem
    rw [← hev, hcoh, hek]

/-- Witness for claim C3: a concrete `setLocked` mutation on the
bootstrapped state, then a query on root. -/
theorem cache_coherence_witness :
    allowedCached
        ⟨[("r0", { name := "root", admin := true, locked := true, roles := ["a0"] })],
         [("a0", { name := "all" })], []⟩
        { name := "root", admin := true, locked := true, roles := ["a0"] }
        (["foo"], none, none) =
      userAllowed
        ⟨[("r0", { name := "root", admin := true, locked := true, roles := ["a0"] })],
         [("a0", { name := "all" })], []⟩
        { name := "root", admin := true, locked := true, roles := ["a0"] }
        ["foo"] none none :=
  cache_coherence "a0" "r0" (initAuth "a0" "r0")
    ⟨[("r0", { name := "root", admin := true, locked := true, roles := ["a0"] })],
     [("a0", { name := "all" })], []⟩
    (.setLocked "r0" true) (Reach.refl _) trivial (by decide) "r0"
    { name := "root", admin := true, locked := true, roles := ["a0"] }
    (by decide) (["foo"], none, none)

/-! ### Claim C4 -/

/-- Counterexample to claim C4 as stated: a completed public
`setUserInfo(root, 'roles', [])` removes the `all` role's iden from the
root user's role list, so not every reachable state keeps it. -/
theorem all_role_membership_cex :
    Reach (initAuth "a0" "r0") c4CexState ∧
    (runOp (.setUserInfo "r0" (.uroles []) none) (initAuth "a0" "r0")).2 = none ∧
    (lookupA c4CexState.users "r0").map UserState.roles = some [] := by
  refine ⟨?_, by decide, rfl⟩
  exact Reach.step _ _ _ (.setUserInfo "r0" (.uroles []) none) (Reach.refl _)
    trivial (by decide)

theorem mem_removeFirst_of_ne {α : Type} [DecidableEq α] {x y : α} (l : List α)
    (h : x ≠ y) : x ∈ removeFirst l y ↔ x ∈ l := by
  induction l with
  | nil => exact Iff.rfl
  | cons z l ih =>
    rw [removeFirst]
    by_cases hz : z = y
    · rw [if_pos hz]
      constructor
      · exact fun hx => List.mem_cons_of_mem z hx
      · intro hx
        rcases List.mem_cons.mp hx with hxz | hx'
        · exact absurd (hxz.trans hz) h
        · exact hx'
    · rw [if_neg hz]
      simp [ih]

theorem mem_grantNewRoles_of_mem {x rid : Iden} {roles : List Iden}
    (indx : Option Nat) (hx : x ∈ roles) : x ∈ grantNewRoles roles rid indx := by
  cases indx with
  | none => exact List.mem_append_left _ hx
  | some i =>
    rw [grantNewRoles]
    by_cases hlen : roles.length ≤ i
    · rw [if_pos hlen]
      exact List.mem_append_left _ hx
    · rw [if_neg hlen]
      exact (List.mem_insertIdx (Nat.le_of_lt (Nat.lt_of_not_le hlen))).mpr (Or.inr hx)

theorem findRoleByName_all_eq (a : Iden) (roles : List (Iden × RoleState))
    (h1 : ∀ p ∈ roles, ((p : Iden × RoleState).2.name = "all" ↔ p.1 = a))
    (h2 : (lookupA roles a).isSome = true) :
    ∃ rs, findRoleByName roles "all" = some (a, rs) := by
  induction roles with
  | nil => simp [lookupA] at h2
  | cons p l ih =>
    by_cases hn : p.2.name = "all"
    · have hpa : p.1 = a := (h1 p (List.mem_cons_self p l)).mp hn
      refine ⟨p.2, ?_⟩
      have hb : (p.2.name == "all") = true := beq_iff_eq.mpr hn
      simp only [findRoleByName, List.find?_cons, hb]
      rw [← hpa]
    · have hpa : p.1 ≠ a := fun hc => hn ((h1 p (List.mem_cons_self p l)).mpr hc)
      have h2' : (lookupA l a).isSome = true := by
        rw [lookupA_cons, if_neg hpa] at h2
        exact h2
      have h1' := fun q hq => h1 q (List.mem_cons_of_mem p hq)
      obtain ⟨rs, hrs⟩ := ih h1' h2'
      refine ⟨rs, ?_⟩
      have hb : (p.2.name == "all") = false := beq_eq_false_iff_ne.mpr hn
      simp only [findRoleByName, List.find?_cons, hb]
      exact hrs

/-- The entry a successful by-name find returns is a member whose name
matches. -/
theorem findRoleByName_spec {roles : List (Iden × RoleState)} {n : String}
    {rid : Iden} {r : RoleState} (h : findRoleByName roles n = some (rid, r)) :
    (rid, r) ∈ roles ∧ r.name = n := by
  have hmem := List.mem_of_find?_eq_some h
  have hpred := List.find?_some h
  simp only at hpred
  exact ⟨hmem, beq_iff_eq.mp hpred⟩

/-- No role is named `all` except the bootstrap all role, given the
invariant; so a fresh name check rules out `all`. -/
theorem name_not_all_of_find_none (a : Iden) (st : AuthState)
    (hInv : AllRoleOK a st) {n : String}
    (h : findRoleByName st.roles n = none) : n ≠ "all" := by
  intro hn
  obtain ⟨rs, hrs⟩ := findRoleByName_all_eq a st.roles hInv.1 hInv.2.1
  rw [hn, hrs] at h
  cases h

theorem applyUVal_roles_of_safe {u : UserState} {v : UVal}
    (hv : ∀ rs, v ≠ .uroles rs) : (applyUVal u v).roles = u.roles := by
  cases v with
  | uroles rs => exact absurd rfl (hv rs)
  | admin b => rfl
  | locked b => rfl
  | archived b => rfl
  | urules rs => rfl
  | passwd p => rfl

theorem self_mem_grantNewRoles (roles : List Iden) (rid : Iden) (indx : Option Nat) :
    rid ∈ grantNewRoles roles rid indx := by
  cases indx with
  | none => simp [grantNewRoles]
  | some i =>
    by_cases hlen : roles.length ≤ i
    · simp [grantNewRoles, hlen]
    · rw [grantNewRoles, if_neg hlen]
      exact (List.mem_insertIdx (Nat.le_of_lt (Nat.lt_of_not_le hlen))).mpr (Or.inl rfl)

/-- Assemble the C4 invariant from componentwise facts. -/
theorem allRoleOK_build (a : Iden) (st st' : AuthState) (hInv : AllRoleOK a st)
    (hroles : ∀ p' ∈ st'.roles, ∃ p ∈ st.roles,
      (p' : Iden × RoleState).1 = (p : Iden × RoleState).1 ∧ p'.2.name = p.2.name)
    (hlook : (lookupA st'.roles a).isSome = true)
    (husers : ∀ p' ∈ st'.users, a ∈ (p' : Iden × UserState).2.roles) :
    AllRoleOK a st' := by
  refine ⟨?_, hlook, husers⟩
  intro p' hp'
  obtain ⟨p, hp, h1, h2⟩ := hroles p' hp'
  rw [h1, h2]
  exact hInv.1 p hp

/-- A users-only change whose per-user function keeps membership of the
all role preserves the C4 invariant. -/
theorem allRoleOK_usersSetA (a : Iden) (st : AuthState) (i : Iden)
    (f : UserState → UserState) (hf : ∀ w, a ∈ w.roles → a ∈ (f w).roles)
    (hInv : AllRoleOK a st) :
    AllRoleOK a { st with users := setA st.users i f } := by
  refine allRoleOK_build a st _ hInv (fun p' hp' => ⟨p', hp', rfl, rfl⟩) hInv.2.1 ?_
  intro p' hp'
  obtain ⟨p, hp, heq⟩ := List.mem_map.mp hp'
  rw [← heq]
  by_cases hc : (p.1 == i) = true
  · simp only [hc, if_true]
    exact hf p.2 (hInv.2.2 p hp)
  · simp only [hc, Bool.false_eq_true, if_false]
    exact hInv.2.2 p hp

theorem allRoleOK_setUserInfoOp_safe (a : Iden) (st st' : AuthState) (iden : Iden)
    (v : UVal) (gate : Option Iden) (hv : ∀ rs, v ≠ .uroles rs)
    (hInv : AllRoleOK a st) (h : setUserInfoOp st iden v gate = (st', none)) :
    AllRoleOK a st' := by
  cases hu : lookupA st.users iden with
  | none => simp [setUserInfoOp, hu] at h
  | some u =>
    cases gate with
    | none =>
      rw [setUserInfoOp_none_eq st iden v u hu] at h
      have hst' : st' = { st with users := setA st.users iden (fun w => clearCache (applyUVal w v)) } :=
        (congrArg Prod.fst h).symm
      subst hst'
      refine allRoleOK_usersSetA a st iden _ ?_ hInv
      intro w hw
      show a ∈ (applyUVal w v).roles
      rw [applyUVal_roles_of_safe hv]
      exact hw
    | some g =>
      cases hov : lookupA u.authgates g with
      | some gi =>
        have key : setUserInfoOp st iden v (some g) = ({ st with users := setA st.users iden (fun w => clearCache { w with authgates := setA w.authgates g (fun x => applyUValGate x v) }) }, none) := by
          simp [setUserInfoOp, hu, hov]
        rw [key] at h
        have hst' : st' = { st with users := setA st.users iden (fun w => clearCache { w with authgates := setA w.authgates g (fun x => applyUValGate x v) }) } :=
          (congrArg Prod.fst h).symm
        subst hst'
        exact allRoleOK_usersSetA a st iden _ (fun w hw => hw) hInv
      | none =>
        cases hg : lookupA st.gates g with
        | none => simp [setUserInfoOp, hu, hov, hg] at h
        | some t =>
          have key : setUserInfoOp st iden v (some g) = ({ st with users := setA st.users iden (fun w => clearCache { w with authgates := w.authgates ++ [(g, applyUValGate {} v)] }) }, none) := by
            simp [setUserInfoOp, hu, hov, hg]
          rw [key] at h
          have hst' : st' = { st with users := setA st.users iden (fun w => clearCache { w with authgates := w.authgates ++ [(g, applyUValGate {} v)] }) } :=
            (congrArg Prod.fst h).symm
          subst hst'
          exact allRoleOK_usersSetA a st iden _ (fun w hw => hw) hInv

theorem allRoleOK_setUserInfoOp_roles (a : Iden) (st st' : AuthState) (iden : Iden)
    (rs : List Iden) (hmem : a ∈ rs) (hInv : AllRoleOK a st)
    (h : setUserInfoOp st iden (.uroles rs) none = (st', none)) : AllRoleOK a st' := by
  cases hu : lookupA st.users iden with
  | none => simp [setUserInfoOp, hu] at h
  | some u =>
    rw [setUserInfoOp_none_eq st iden (.uroles rs) u hu] at h
    have hst' : st' = { st with users := setA st.users iden (fun w => clearCache (applyUVal w (.uroles rs))) } :=
      (congrArg Prod.fst h).symm
    subst hst'
    exact allRoleOK_usersSetA a st iden _ (fun w _ => hmem) hInv

theorem allRoleOK_runOp (a : Iden) (st st' : AuthState) (op : AuthOp)
    (hsafe : c4SafeOp a op) (hfresh : opFresh op st) (hInv : AllRoleOK a st)
    (h : runOp op st = (st', none)) : AllRoleOK a st' := by
  cases op with
  | addUser iden n =>
    have h' : addUserOp st iden n = (st', none) := h
    unfold addUserOp at h'
    cases hd : findUserByName st.users n with
    | some q =>
      have hraw : addUserRaw st iden n = (st, some .dupUserName) := by
        simp [addUserRaw, hd]
      rw [hraw] at h'
      simp at h'
    | none =>
      have hraw : addUserRaw st iden n =
          ({ st with users := st.users ++ [(iden, { name := n })] }, none) := by
        simp [addUserRaw, hd]
      rw [hraw] at h'
      have h'' : grantOp { st with users := st.users ++ [(iden, { name := n })] } iden "all" none = (st', none) := h'
      obtain ⟨rsall, hfall⟩ := findRoleByName_all_eq a st.roles hInv.1 hInv.2.1
      have hfall1 : findRoleByName ({ st with users := st.users ++ [(iden, ({ name := n } : UserState))] } : AuthState).roles "all" = some (a, rsall) := hfall
      have hu1 : lookupA ({ st with users := st.users ++ [(iden, ({ name := n } : UserState))] } : AuthState).users iden = some { name := n } := by
        show lookupA (st.users ++ [(iden, ({ name := n } : UserState))]) iden = _
        rw [lookupA_append_single, hfresh.1]
        simp
      have hnm : a ∉ (({ name := n } : UserState)).roles := by
        simp
      have hkey : grantOp ({ st with users := st.users ++ [(iden, ({ name := n } : UserState))] } : AuthState) iden "all" none = setUserInfoOp ({ st with users := st.users ++ [(iden, ({ name := n } : UserState))] } : AuthState) iden (.uroles (grantNewRoles (({ name := n } : UserState)).roles a none)) none := by
        simp [grantOp, hfall1, hu1, hnm]
      rw [hkey] at h''
      have hmem : a ∈ grantNewRoles (({ name := n } : UserState)).roles a none :=
        self_mem_grantNewRoles _ a none
      rw [setUserInfoOp_none_eq _ iden _ ({ name := n } : UserState) hu1] at h''
      have hst' : st' = { ({ st with users := st.users ++ [(iden, ({ name := n } : UserState))] } : AuthState) with users := setA (st.users ++ [(iden, ({ name := n } : UserState))]) iden (fun w => clearCache (applyUVal w (.uroles (grantNewRoles (({ name := n } : UserState)).roles a none)))) } :=
        (congrArg Prod.fst h'').symm
      subst hst'
      refine allRoleOK_build a st _ hInv (fun p' hp' => ⟨p', hp', rfl, rfl⟩) hInv.2.1 ?_
      intro p' hp'
      obtain ⟨p, hp, heq⟩ := List.mem_map.mp hp'
      rw [← heq]
      by_cases hc : (p.1 == iden) = true
      · simp only [hc, if_true]
        show a ∈ grantNewRoles (({ name := n } : UserState)).roles a none
        exact hmem
      · simp only [hc, Bool.false_eq_true, if_false]
        rcases List.mem_append.mp hp with hold | hnew
        · exact hInv.2.2 p hold
        · exfalso
          have hpeq : p = (iden, ({ name := n } : UserState)) := List.mem_singleton.mp hnew
          rw [hpeq] at hc
          simp at hc
  | delUser n =>
    have h' : delUserOp st n = (st', none) := h
    by_cases hroot : (n == "root") = true
    · simp [delUserOp, hroot] at h'
    · cases hf : findUserByName st.users n with
      | none => simp [delUserOp, hroot, hf] at h'
      | some q =>
        have key : delUserOp st n = ({ st with users := removeA st.users q.1 }, none) := by
          simp [delUserOp, hroot, hf]
        rw [key] at h'
        have hst' : st' = { st with users := removeA st.users q.1 } :=
          (congrArg Prod.fst h').symm
        subst hst'
        refine allRoleOK_build a st _ hInv (fun p' hp' => ⟨p', hp', rfl, rfl⟩) hInv.2.1 ?_
        intro p' hp'
        exact hInv.2.2 p' (List.mem_of_mem_filter hp')
  | addRole iden n =>
    have h' : addRoleOp st iden n = (st', none) := h
    cases hd : findRoleByName st.roles n with
    | some q => simp [addRoleOp, hd] at h'
    | none =>
      have key : addRoleOp st iden n =
          ({ st with roles := st.roles ++ [(iden, { name := n })] }, none) := by
        simp [addRoleOp, hd]
      rw [key] at h'
      have hst' : st' = { st with roles := st.roles ++ [(iden, { name := n })] } :=
        (congrArg Prod.fst h').symm
      subst hst'
      have hnall : n ≠ "all" := name_not_all_of_find_none a st hInv hd
      have hia : iden ≠ a := by
        intro hc
        have h2 := hInv.2.1
        rw [← hc, hfresh.2] at h2
        simp at h2
      refine ⟨?_, ?_, hInv.2.2⟩
      · intro p' hp'
        rcases List.mem_append.mp hp' with hold | hnew
        · exact hInv.1 p' hold
        · have hpn : p' = (iden, ({ name := n } : RoleState)) := List.mem_singleton.mp hnew
          rw [hpn]
          constructor
          · intro hc
            exact absurd hc hnall
          · intro hc
            exact absurd hc hia
      · show (lookupA (st.roles ++ [(iden, ({ name := n } : RoleState))]) a).isSome = true
        rw [lookupA_append_single]
        cases hl : lookupA st.roles a with
        | some x => rfl
        | none =>
          exfalso
          have h2 := hInv.2.1
          rw [hl] at h2
          simp at h2
  | delRole n =>
    have h' : delRoleOp st n = (st', none) := h
    by_cases hall : (n == "all") = true
    · simp [delRoleOp, hall] at h'
    · cases hf : findRoleByName st.roles n with
      | none => simp [delRoleOp, hall, hf] at h'
      | some q =>
        obtain ⟨rid, r⟩ := q
        have hspec := findRoleByName_spec hf
        have hrida : rid ≠ a := by
          intro hc
          have hthis := (hInv.1 (rid, r) hspec.1).mpr hc
          rw [hspec.2] at hthis
          exact beq_eq_false_iff_ne.mp (Bool.eq_false_iff.mpr hall) hthis
        have key : delRoleOp st n = ({ st with users := st.users.map (fun p => if rid ∈ p.2.roles then (p.1, clearCache { p.2 with roles := removeFirst p.2.roles rid }) else p), roles := removeA st.roles rid }, none) := by
          simp [delRoleOp, hall, hf]
        rw [key] at h'
        have hst' : st' = { st with users := st.users.map (fun p => if rid ∈ p.2.roles then (p.1, clearCache { p.2 with roles := removeFirst p.2.roles rid }) else p), roles := removeA st.roles rid } :=
          (congrArg Prod.fst h').symm
        subst hst'
        refine allRoleOK_build a st _ hInv ?_ ?_ ?_
        · intro p' hp'
          exact ⟨p', List.mem_of_mem_filter hp', rfl, rfl⟩
        · show (lookupA (removeA st.roles rid) a).isSome = true
          rw [lookupA_removeA, if_neg (fun hc : a = rid => hrida hc.symm)]
          exact hInv.2.1
        · intro p' hp'
          obtain ⟨p, hp, heq⟩ := List.mem_map.mp hp'
          rw [← heq]
          by_cases hc : rid ∈ p.2.roles
          · simp only [hc, if_true]
            show a ∈ removeFirst p.2.roles rid
            exact (mem_removeFirst_of_ne p.2.roles (Ne.symm hrida)).mpr (hInv.2.2 p hp)
          · simp only [hc, if_false]
            exact hInv.2.2 p hp
  | setUserName iden n =>
    have h' : setUserNameOp st iden n = (st', none) := h
    cases hd : findUserByName st.users n with
    | some q => simp [setUserNameOp, hd] at h'
    | none =>
      cases ht : lookupA st.users iden with
      | none => simp [setUserNameOp, hd, ht] at h'
      | some u =>
        have key : setUserNameOp st iden n =
            ({ st with users := setA st.users iden (fun w => { w with name := n }) }, none) := by
          simp [setUserNameOp, hd, ht]
        rw [key] at h'
        have hst' : st' = { st with users := setA st.users iden (fun w => { w with name := n }) } :=
          (congrArg Prod.fst h').symm
        subst hst'
        exact allRoleOK_usersSetA a st iden _ (fun w hw => hw) hInv
  | setRoleName iden n =>
    have h' : setRoleNameOp st iden n = (st', none) := h
    have hia : iden ≠ a := by
      intro hc
      exact (hsafe.2 n) (by rw [hc])
    cases hd : findRoleByName st.roles n with
    | some q => simp [setRoleNameOp, hd] at h'
    | none =>
      cases ht : lookupA st.roles iden with
      | none => simp [setRoleNameOp, hd, ht] at h'
      | some r =>
        have hnall : n ≠ "all" := name_not_all_of_find_none a st hInv hd
        have key : setRoleNameOp st iden n =
            ({ st with roles := setA st.roles iden (fun w => { w with name := n }) }, none) := by
          simp [setRoleNameOp, hd, ht]
        rw [key] at h'
        have hst' : st' = { st with roles := setA st.roles iden (fun w => { w with name := n }) } :=
          (congrArg Prod.fst h').symm
        subst hst'
        refine ⟨?_, ?_, hInv.2.2⟩
        · intro p' hp'
          obtain ⟨p, hp, heq⟩ := List.mem_map.mp hp'
          rw [← heq]
          by_cases hc : (p.1 == iden) = true
          · simp only [hc, if_true]
            constructor
            · intro hcc
              exact absurd hcc hnall
            · intro hcc
              exact absurd ((beq_iff_eq.mp hc).symm.trans hcc) hia
          · simp only [hc, Bool.false_eq_true, if_false]
            exact hInv.1 p hp
        · show (lookupA (setA st.roles iden (fun w => { w with name := n })) a).isSome = true
          rw [lookupA_setA, if_neg (fun hc : a = iden => hia hc.symm)]
          exact hInv.2.1
  | setUserInfo iden v gate =>
    have hv : ∀ rs, v ≠ .uroles rs := fun rs hc => (hsafe.1 iden rs gate) (by rw [hc])
    exact allRoleOK_setUserInfoOp_safe a st st' iden v gate hv hInv h
  | setRoleInfo iden v gate =>
    have h' : setRoleInfoOp st iden v gate = (st', none) := h
    have husers : ∀ p' ∈ clearUsersWithRole st.users iden,
        a ∈ (p' : Iden × UserState).2.roles := by
      intro p' hp'
      obtain ⟨p, hp, heq⟩ := List.mem_map.mp hp'
      rw [← heq]
      by_cases hc : iden ∈ p.2.roles
      · simp only [hc, if_true]
        exact hInv.2.2 p hp
      · simp only [hc, if_false]
        exact hInv.2.2 p hp
    cases hr : lookupA st.roles iden with
    | none => simp [setRoleInfoOp, hr] at h'
    | some r =>
      cases gate with
      | none =>
        have key : setRoleInfoOp st iden v none = ({ st with roles := setA st.roles iden (fun w => applyRVal w v), users := clearUsersWithRole st.users iden }, none) := by
          simp [setRoleInfoOp, hr]
        rw [key] at h'
        have hst' : st' = { st with roles := setA st.roles iden (fun w => applyRVal w v), users := clearUsersWithRole st.users iden } :=
          (congrArg Prod.fst h').symm
        subst hst'
        refine allRoleOK_build a st _ hInv ?_ ?_ husers
        · intro p' hp'
          obtain ⟨p, hp, heq⟩ := List.mem_map.mp hp'
          refine ⟨p, hp, ?_, ?_⟩ <;> rw [← heq] <;>
            by_cases hc : (p.1 == iden) = true <;>
            cases v <;> simp [hc, applyRVal]
        · show (lookupA (setA st.roles iden (fun w => applyRVal w v)) a).isSome = true
          rw [lookupA_setA]
          by_cases hc : a = iden
          · rw [if_pos hc, hc, hr]
            rfl
          · rw [if_neg hc]
            exact hInv.2.1
      | some g =>
        cases hov : lookupA r.authgates g with
        | some gi =>
          have key : setRoleInfoOp st iden v (some g) = ({ st with roles := setA st.roles iden (fun w => { w with authgates := setA w.authgates g (fun x => applyRValGate x v) }), users := clearUsersWithRole st.users iden }, none) := by
            simp [setRoleInfoOp, hr, hov]
          rw [key] at h'
          have hst' : st' = { st with roles := setA st.roles iden (fun w => { w with authgates := setA w.authgates g (fun x => applyRValGate x v) }), users := clearUsersWithRole st.users iden } :=
            (congrArg Prod.fst h').symm
          subst hst'
          refine allRoleOK_build a st _ hInv ?_ ?_ husers
          · intro p' hp'
            obtain ⟨p, hp, heq⟩ := List.mem_map.mp hp'
            refine ⟨p, hp, ?_, ?_⟩ <;> rw [← heq] <;>
              by_cases hc : (p.1 == iden) = true <;> simp [hc]
          · show (lookupA (setA st.roles iden (fun w => { w with authgates := setA w.authgates g (fun x => applyRValGate x v) })) a).isSome = true
            rw [lookupA_setA]
            by_cases hc : a = iden
            · rw [if_pos hc, hc, hr]
              rfl
            · rw [if_neg hc]
              exact hInv.2.1
        | none =>
          cases hg : lookupA st.gates g with
          | none => simp [setRoleInfoOp, hr, hov, hg] at h'
          | some t =>
            have key : setRoleInfoOp st iden v (some g) = ({ st with roles := setA st.roles iden (fun w => { w with authgates := w.authgates ++ [(g, applyRValGate {} v)] }), users := clearUsersWithRole st.users iden }, none) := by
              simp [setRoleInfoOp, hr, hov, hg]
            rw [key] at h'
            have hst' : st' = { st with roles := setA st.roles iden (fun w => { w with authgates := w.authgates ++ [(g, applyRValGate {} v)] }), users := clearUsersWithRole st.users iden } :=
              (congrArg Prod.fst h').symm
            subst hst'
            refine allRoleOK_build a st _ hInv ?_ ?_ husers
            · intro p' hp'
              obtain ⟨p, hp, heq⟩ := List.mem_map.mp hp'
              refine ⟨p, hp, ?_, ?_⟩ <;> rw [← heq] <;>
                by_cases hc : (p.1 == iden) = true <;> simp [hc]
            · show (lookupA (setA st.roles iden (fun w => { w with authgates := w.authgates ++ [(g, applyRValGate {} v)] })) a).isSome = true
              rw [lookupA_setA]
              by_cases hc : a = iden
              · rw [if_pos hc, hc, hr]
                rfl
              · rw [if_neg hc]
                exact hInv.2.1
  | grant uid rn indx =>
    have h' : grantOp st uid rn indx = (st', none) := h
    cases hr : findRoleByName st.roles rn with
    | none => simp [grantOp, hr] at h'
    | some q =>
      obtain ⟨rid, r⟩ := q
      cases hu : lookupA st.users uid with
      | none => simp [grantOp, hr, hu] at h'
      | some u =>
        by_cases hm : rid ∈ u.roles
        · have key : grantOp st uid rn indx = (st, none) := by
            simp [grantOp, hr, hu, hm]
          rw [key] at h'
          have hst : st = st' := congrArg Prod.fst h'
          rw [← hst]
          exact hInv
        · have key : grantOp st uid rn indx =
              setUserInfoOp st uid (.uroles (grantNewRoles u.roles rid indx)) none := by
            simp [grantOp, hr, hu, hm]
          rw [key] at h'
          have hmem : a ∈ grantNewRoles u.roles rid indx :=
            mem_grantNewRoles_of_mem indx (hInv.2.2 (uid, u) (lookupA_mem hu))
          exact allRoleOK_setUserInfoOp_roles a st st' uid _ hmem hInv h'
  | revoke uid rn =>
    have h' : revokeOp st uid rn = (st', none) := h
    cases hr : findRoleByName st.roles rn with
    | none => simp [revokeOp, hr] at h'
    | some q =>
      obtain ⟨rid, r⟩ := q
      by_cases hall : (r.name == "all") = true
      · simp [revokeOp, hr, hall] at h'
      · cases hu : lookupA st.users uid with
        | none => simp [revokeOp, hr, hall, hu] at h'
        | some u =>
          by_cases hm : rid ∈ u.roles
          · have hspec := findRoleByName_spec hr
            have hrida : rid ≠ a := by
              intro hc
              have := (hInv.1 (rid, r) hspec.1).mpr hc
              exact (beq_eq_false_iff_ne.mp (Bool.eq_false_iff.mpr hall)) this
            have key : revokeOp st uid rn =
                setUserInfoOp st uid (.uroles (removeFirst u.roles rid)) none := by
              simp [revokeOp, hr, hall, hu, hm]
            rw [key] at h'
            have hmem : a ∈ removeFirst u.roles rid :=
              (mem_removeFirst_of_ne u.roles (Ne.symm hrida)).mpr
                (hInv.2.2 (uid, u) (lookupA_mem hu))
            exact allRoleOK_setUserInfoOp_roles a st st' uid _ hmem hInv h'
          · have key : revokeOp st uid rn = (st, none) := by
              simp [revokeOp, hr, hall, hu, hm]
            rw [key] at h'
            have hst : st = st' := congrArg Prod.fst h'
            rw [← hst]
            exact hInv
  | setLocked uid b =>
    exact allRoleOK_setUserInfoOp_safe a st st' uid (.locked b) none
      (fun rs hc => by cases hc) hInv h
  | setArchived uid b =>
    have h' : setArchivedOp st uid b = (st', none) := h
    unfold setArchivedOp at h'
    cases h1 : setUserInfoOp st uid (.archived b) none with
    | mk st1 e =>
      cases e with
      | some err =>
        rw [h1] at h'
        simp at h'
      | none =>
        rw [h1] at h'
        have hInv1 := allRoleOK_setUserInfoOp_safe a st st1 uid (.archived b) none
          (fun rs hc => by cases hc) hInv h1
        cases b with
        | true =>
          exact allRoleOK_setUserInfoOp_safe a st1 st' uid (.locked true) none
            (fun rs hc => by cases hc) hInv1 h'
        | false =>
          have h2 : (st1, (none : Option AuthErr)) = (st', none) := h'
          have hst : st1 = st' := congrArg Prod.fst h2
          rw [← hst]
          exact hInv1
  | setPasswd uid arg salt =>
    have h' : setPasswdOp st uid arg salt = (st', none) := h
    cases arg with
    | pyNonStr => simp [setPasswdOp] at h'
    | pyStr p =>
      by_cases hp : p = ""
      · simp [setPasswdOp, hp] at h'
      · cases hu : lookupA st.users uid with
        | none => simp [setPasswdOp, hp, hu] at h'
        | some u =>
          have key : setPasswdOp st uid (.pyStr p) salt = ({ st with users := setA st.users uid (fun w => { w with passwd := some (salt, s_common_guid (salt, p)) }) }, none) := by
            simp [setPasswdOp, hp, hu]
          rw [key] at h'
          have hst' : st' = { st with users := setA st.users uid (fun w => { w with passwd := some (salt, s_common_guid (salt, p)) }) } :=
            (congrArg Prod.fst h').symm
          subst hst'
          exact allRoleOK_usersSetA a st uid _ (fun w hw => hw) hInv
  | addAuthGate iden ty =>
    have h' : addAuthGateOp st iden ty = (st', none) := h
    cases hg : lookupA st.gates iden with
    | some t =>
      by_cases hty : (t == ty) = true
      · have key : addAuthGateOp st iden ty = (st, none) := by
          simp [addAuthGateOp, hg, hty]
        rw [key] at h'
        have hst : st = st' := congrArg Prod.fst h'
        rw [← hst]
        exact hInv
      · simp [addAuthGateOp, hg, hty] at h'
    | none =>
      have key : addAuthGateOp st iden ty =
          ({ st with gates := st.gates ++ [(iden, ty)] }, none) := by
        simp [addAuthGateOp, hg]
      rw [key] at h'
      have hst' : st' = { st with gates := st.gates ++ [(iden, ty)] } :=
        (congrArg Prod.fst h').symm
      subst hst'
      exact ⟨hInv.1, hInv.2.1, hInv.2.2⟩
  | delAuthGate g =>
    have h' : delAuthGateOp st g = (st', none) := h
    cases hg : lookupA st.gates g with
    | none => simp [delAuthGateOp, hg] at h'
    | some t =>
      have key : delAuthGateOp st g = ({ st with users := st.users.map (fun p => if (lookupA p.2.authgates g).isSome || p.2.roles.any (roleHasGate st g) then (p.1, clearCache { p.2 with authgates := removeA p.2.authgates g }) else (p.1, { p.2 with authgates := removeA p.2.authgates g })), roles := st.roles.map (fun p => (p.1, { p.2 with authgates := removeA p.2.authgates g })), gates := removeA st.gates g }, none) := by
        simp [delAuthGateOp, hg]
      rw [key] at h'
      have hst' : st' = { st with users := st.users.map (fun p => if (lookupA p.2.authgates g).isSome || p.2.roles.any (roleHasGate st g) then (p.1, clearCache { p.2 with authgates := removeA p.2.authgates g }) else (p.1, { p.2 with authgates := removeA p.2.authgates g })), roles := st.roles.map (fun p => (p.1, { p.2 with authgates := removeA p.2.authgates g })), gates := removeA st.gates g } :=
        (congrArg Prod.fst h').symm
      subst hst'
      refine allRoleOK_build a st _ hInv ?_ ?_ ?_
      · intro p' hp'
        obtain ⟨p, hp, heq⟩ := List.mem_map.mp hp'
        exact ⟨p, hp, by rw [← heq], by rw [← heq]⟩
      · show (lookupA (st.roles.map (fun q => (q.1, ({ q.2 with authgates := removeA q.2.authgates g } : RoleState)))) a).isSome = true
        rw [lookupA_removeGates]
        cases hl : lookupA st.roles a with
        | some x => rfl
        | none =>
          exfalso
          have h2 := hInv.2.1
          rw [hl] at h2
          simp at h2
      · intro p' hp'
        obtain ⟨p, hp, heq⟩ := List.mem_map.mp hp'
        rw [← heq]
        by_cases hc : ((lookupA p.2.authgates g).isSome || p.2.roles.any (roleHasGate st g)) = true
        · simp only [hc, if_true]
          exact hInv.2.2 p hp
        · simp only [hc, Bool.false_eq_true, if_false]
          exact hInv.2.2 p hp
  | query uid k =>
    have h' : queryOp st uid k = (st', none) := h
    cases hu : lookupA st.users uid with
    | none => simp [queryOp, hu] at h'
    | some u =>
      by_cases hhit : (u.cache.find? (fun e => decide (e.1 = k))).isSome = true
      · have key : queryOp st uid k = (st, none) := by
          simp [queryOp, hu, hhit]
        rw [key] at h'
        have hst : st = st' := congrArg Prod.fst h'
        rw [← hst]
        exact hInv
      · have key : queryOp st uid k = ({ st with users := setA st.users uid (fun w => { w with cache := ((k, userAllowed st u k.1 k.2.1 k.2.2) :: w.cache).take permCacheSize }) }, none) := by
          simp [queryOp, hu, hhit]
        rw [key] at h'
        have hst' : st' = { st with users := setA st.users uid (fun w => { w with cache := ((k, userAllowed st u k.1 k.2.1 k.2.2) :: w.cache).take permCacheSize }) } :=
          (congrArg Prod.fst h').symm
        subst hst'
        exact allRoleOK_usersSetA a st uid _ (fun w hw => hw) hInv

theorem allRoleOK_init (a r : Iden) : AllRoleOK a (initAuth a r) := by
  refine ⟨?_, ?_, ?_⟩
  · intro p hp
    have hp' : p = (a, ({ name := "all" } : RoleState)) := List.mem_singleton.mp hp
    rw [hp']
    simp
  · show (lookupA [(a, ({ name := "all" } : RoleState))] a).isSome = true
    rw [lookupA_cons]
    simp
  · intro p hp
    have hp' : p = (r, ({ name := "root", admin := true, roles := [a] } : UserState)) :=
      List.mem_singleton.mp hp
    rw [hp']
    simp

theorem allRoleOK_reachC4 (a r : Iden) (st : AuthState) (h : ReachC4 a r st) :
    AllRoleOK a st := by
  induction h with
  | init => exact allRoleOK_init a r
  | step stm st' op hr hsafe hfresh hrun ih =>
    exact allRoleOK_runOp a stm st' op hsafe hfresh ih hrun

/-- Claim C4 (amended): starting from a freshly bootstrapped Auth, as
long as no operation writes a user's `roles` info key directly and the
bootstrap `all` role is never renamed, every user's role list contains
the `all` role's iden in every reachable state: `addUser` grants it
automatically and `revoke` refuses to remove it.  (As stated the claim
fails: a direct `setUserInfo(iden, 'roles', ...)` — itself a public
operation — can remove it, and renaming the `all` role disables the
revoke guard.) -/
theorem all_role_membership (a r : Iden) (st : AuthState) (h : ReachC4 a r st) :
    ∀ p ∈ st.users, a ∈ (p : Iden × UserState).2.roles :=
  fun p hp => (allRoleOK_reachC4 a r st h).2.2 p hp

/-- Witness for the amended claim C4 at the bootstrapped state. -/
theorem all_role_membership_witness :
    "a0" ∈ (({ name := "root", admin := true, roles := ["a0"] } : UserState)).roles :=
  all_role_membership "a0" "r0" (initAuth "a0" "r0") ReachC4.init
    ("r0", { name := "root", admin := true, roles := ["a0"] }) (by decide)

end HiveAuth
